import Mathlib

/-!
# LC-3 simulator (`LC3-Assembler.c`): shallow embedding and verified properties

The C program keeps one `CPU` record (memory, registers, program counter, flags) and
mutates it in place.  Here every C function that takes `CPU *cpu` becomes a function
from `CPU` states to `Option CPU`:

* `some s` is the state the C function leaves behind;
* `none` means the C function indexes `mem` or `reg` outside the array; C gives no
  meaning to the run from there on.

Integer conventions.  `Word` is `short int`: storing an `int` into a `Word` is modelled
by `toWord` (wrap into `-32768 .. 32767`).  `int` values are mathematical integers; the
bit operations `&`, `~` act on the 32-bit two's-complement pattern (`band`, `bnot`).
`pc` is a C `int`: it is incremented and offset without any wrap-around, and every
arithmetic step on it happens after a successful fetch, hence far from `int` overflow.
Output (`printf`) is not modelled, except that array reads made for `printf` arguments
are kept, since they index the arrays as well.
-/

namespace LC3

/-! ## Machine integers -/

/-- Number of memory cells, `# define MEMLEN 65536`. -/
def MEMLEN : Int := 65536

/-- Number of registers, `# define NREG 8`. -/
def NREG : Int := 8

/-- Conversion of an `int` to `Word` (`short int`): wrap into `-32768 .. 32767`. -/
def toWord (x : Int) : Int := (x + 32768) % 65536 - 32768

/-- Reinterpretation of a 32-bit pattern as a signed `int`. -/
def toInt32 (x : Int) : Int := (x + 2147483648) % 4294967296 - 2147483648

/-- C `a & b` on `int` operands: bitwise and of the 32-bit two's-complement patterns. -/
def band (a b : Int) : Int :=
  toInt32 (Int.ofNat ((a % 4294967296).toNat &&& (b % 4294967296).toNat))

/-- C `~a` on an `int` operand: complement of the 32-bit two's-complement pattern. -/
def bnot (a : Int) : Int := toInt32 (4294967295 - a % 4294967296)

/-- C `a >> k`; every use in the program shifts a non-negative masked value. -/
def shr (a : Int) (k : Nat) : Int := a / 2 ^ k

/-- C `a << k` for the constant masks `1 << 5`, `7 << 6`, `7 << 9`, `1 << 11`. -/
def shl (a : Int) (k : Nat) : Int := a * 2 ^ k

/-! ## The CPU record -/

/-- The C `struct CPU`, field by field, plus two fields for the environment of the TRAP
handler: `stdin`, the characters not yet read from standard input, which
`scanf("%c", &input)` consumes, and `input`, what the local `char input` holds each
time `scanf` reaches the end of input and assigns nothing. -/
structure CPU where
  /-- `Word mem[MEMLEN]`; only indices `0 .. MEMLEN-1` are cells of the array. -/
  mem : Int → Int
  /-- `Word reg[NREG]`; only indices `0 .. NREG-1` are cells of the array. -/
  reg : Int → Int
  /-- `int pc`. -/
  pc : Int
  /-- `int running` (1 yes, 0 no). -/
  running : Int
  /-- `int cc`. -/
  cc : Int
  /-- `Word ir`. -/
  ir : Int
  /-- `int opcode`. -/
  opcode : Int
  /-- `unsigned int origin`. -/
  origin : Int
  /-- `char condition`. -/
  condition : Char
  /-- Unread characters of standard input (environment of the process). -/
  stdin : List Int
  /-- Contents of the unassigned local `char input` of the TRAP handler, one for each
  `scanf` that finds no character; C leaves them indeterminate, so they are any values. -/
  input : Nat → Int

/-- Read `cpu->mem[i]`. -/
def CPU.readMem (cpu : CPU) (i : Int) : Option Int :=
  if 0 ≤ i ∧ i < MEMLEN then some (cpu.mem i) else none

/-- Assignment `cpu->mem[i] = v`, the `int` value `v` being converted to `Word`. -/
def CPU.writeMem (cpu : CPU) (i v : Int) : Option CPU :=
  if 0 ≤ i ∧ i < MEMLEN then
    some { cpu with mem := fun a => if a = i then toWord v else cpu.mem a }
  else none

/-- Read `cpu->reg[i]`. -/
def CPU.readReg (cpu : CPU) (i : Int) : Option Int :=
  if 0 ≤ i ∧ i < NREG then some (cpu.reg i) else none

/-- Assignment `cpu->reg[i] = v`, the `int` value `v` being converted to `Word`. -/
def CPU.writeReg (cpu : CPU) (i v : Int) : Option CPU :=
  if 0 ≤ i ∧ i < NREG then
    some { cpu with reg := fun a => if a = i then toWord v else cpu.reg a }
  else none

/-! ## Condition code -/

/-- Source function `calculateCondition`: cc from the previous result. -/
def calculateCondition (result : Int) (cpu : CPU) : CPU :=
  if result > 0 then { cpu with cc := 1 }
  else if result = 0 then { cpu with cc := 2 }
  else { cpu with cc := 4 }

/-- Source function `generateCondition`: readable representation of cc. -/
def generateCondition (cpu : CPU) : CPU :=
  if cpu.cc = 1 then { cpu with condition := 'P' }
  else if cpu.cc = 2 then { cpu with condition := 'Z' }
  else if cpu.cc = 4 then { cpu with condition := 'N' }
  else cpu

/-- Source function `halt_processor`. -/
def halt_processor (cpu : CPU) : CPU := { cpu with running := 0 }

/-! ## Initialisation -/

/-- Source function `initialize_control_unit`: zero pc, ir and all registers, set running and cc to Z.
The loop `for (i = 0; i < NREG; i++) cpu->reg[i] = 0` assigns each of the eight cells. -/
def initialize_control_unit (cpu : CPU) : CPU :=
  { cpu with
    pc := 0, ir := 0, running := 1, cc := 2,
    reg := fun a => if 0 ≤ a ∧ a < NREG then 0 else cpu.reg a }

/-- The `while (bytes_read != -1 && !done)` loop of `initialize_memory` over the lines
of the data file after the first: `none` is a line on which `sscanf(buffer, "%x", ...)`
returns 0 or -1 (skipped), `some v` a line that scans to `v`, stored by
`cpu->mem[loc++] = value_read`.  Returns the state and the final `loc`. -/
def load_lines (cpu : CPU) (loc : Int) : List (Option Int) → Option (CPU × Int)
  | [] => some (cpu, loc)
  | none :: rest => load_lines cpu loc rest
  | some v :: rest =>
    match cpu.writeMem loc v with
    | none => none
    | some cpu1 => load_lines cpu1 (loc + 1) rest

/-- The loop `while (loc < MEMLEN) cpu->mem[loc++] = 0`, with the number of iterations
still to run as recursion argument. -/
def zero_rest (cpu : CPU) (loc : Int) : Nat → Option CPU
  | 0 => some cpu
  | n + 1 =>
    match cpu.writeMem loc 0 with
    | none => none
    | some cpu1 => zero_rest cpu1 (loc + 1) n

/-- Source function `initialize_memory`: `value_read` is what the first line of the data file scans to
(the origin), `lines` are the remaining lines. -/
def initialize_memory (value_read : Int) (lines : List (Option Int)) (cpu : CPU) :
    Option CPU :=
  let cpu0 := { cpu with pc := value_read, origin := value_read }
  match load_lines cpu0 value_read lines with
  | none => none
  | some (cpu1, loc) => zero_rest cpu1 loc (MEMLEN - loc).toNat

/-- The start of `main`: `initialize_control_unit` followed by `initialize_memory`, on
the (uninitialised, hence arbitrary) local `cpu_value`. -/
def load (origin : Int) (words : List Int) (cpu : CPU) : Option CPU :=
  initialize_memory origin (words.map some) (initialize_control_unit cpu)

/-! ## Instruction handlers -/

/-- The sign adjustment every handler performs inline on a `width`-bit field:
`flag = x >> (width-1); if (flag == 1) x -= 2^width`. -/
def adjust (x : Int) (width : Nat) : Int :=
  if shr x (width - 1) = 1 then x - 2 ^ width else x

/-- Source function `branch_instr`. -/
def branch_instr (cpu : CPU) : Option CPU :=
  let argu := shr (band cpu.ir 0x0e00) 9
  if cpu.ir = 0 then
    some (generateCondition cpu)
  else if band cpu.cc argu ≠ 0 then
    let pcoffset := adjust (band cpu.ir 0x01FF) 9
    let cpu1 := { cpu with pc := cpu.pc + pcoffset }
    some (generateCondition cpu1)
  else some cpu

/-- Source function `add_instr`.  In the immediate case the assignment to `reg[dst]` is made twice, as
in the source, the second one reading `reg[src1]` again. -/
def add_instr (cpu : CPU) : Option CPU :=
  let mask := shl 1 5
  let ident := shr (band mask cpu.ir) 5
  let dst := shr (band (shl 7 9) cpu.ir) 9
  let src1 := shr (band (shl 7 6) cpu.ir) 6
  if ident = 0 then
    let src2 := band 7 cpu.ir
    (cpu.readReg src1).bind fun a =>
    (cpu.readReg src2).bind fun b =>
    (cpu.writeReg dst (a + b)).bind fun cpu1 =>
    (cpu1.readReg dst).bind fun r =>
    some (generateCondition (calculateCondition r cpu1))
  else if ident = 1 then
    let imm := adjust (band 31 cpu.ir) 5
    (cpu.readReg src1).bind fun a =>
    (cpu.writeReg dst (a + imm)).bind fun cpu1 =>
    (cpu1.readReg src1).bind fun a1 =>
    (cpu1.writeReg dst (a1 + imm)).bind fun cpu2 =>
    (cpu2.readReg dst).bind fun r =>
    some (generateCondition (calculateCondition r cpu2))
  else some cpu

/-- Source function `load_instr` (LD). -/
def load_instr (cpu : CPU) : Option CPU :=
  let pcoffset := adjust (band 511 cpu.ir) 9
  let dst := shr (band (shl 7 9) cpu.ir) 9
  (cpu.readMem (cpu.pc + pcoffset)).bind fun v =>
  (cpu.writeReg dst v).bind fun cpu1 =>
  (cpu1.readReg dst).bind fun r =>
  some (generateCondition (calculateCondition r cpu1))

/-- Source function `store_instr` (ST). -/
def store_instr (cpu : CPU) : Option CPU :=
  let pcoffset := adjust (band 511 cpu.ir) 9
  let dst := shr (band (shl 7 9) cpu.ir) 9
  (cpu.readReg dst).bind fun v =>
  (cpu.writeMem (cpu.pc + pcoffset) v).bind fun cpu1 =>
  (cpu1.readReg dst).bind fun r =>
  some (generateCondition (calculateCondition r cpu1))

/-- Source function `jump_subr_instr` (JSR / JSRR).  In the JSRR case `base` is `ir & 0x1c0`, not
shifted, exactly as in the source. -/
def jump_subr_instr (cpu : CPU) : Option CPU :=
  let switchJump := shr (band cpu.ir (shl 1 11)) 11
  if switchJump = 1 then
    (cpu.writeReg 7 cpu.pc).bind fun cpu1 =>
    let jumpoffset := adjust (band cpu1.ir 0x7FF) 11
    some { cpu1 with pc := cpu1.pc + jumpoffset }
  else if switchJump = 0 then
    let base := band cpu.ir 0x1c0
    if base = 7 then
      let pcHolder := cpu.pc
      (cpu.readReg base).bind fun _ =>
      (cpu.readReg 7).bind fun _ =>
      (cpu.readReg base).bind fun target =>
      ({ cpu with pc := target } : CPU).writeReg base pcHolder
    else
      (cpu.writeReg 7 cpu.pc).bind fun cpu1 =>
      (cpu1.readReg base).bind fun target =>
      some { cpu1 with pc := target }
  else some cpu

/-- Source function `and_instr`.  Both cases assign `reg[dst]` twice, as in the source. -/
def and_instr (cpu : CPU) : Option CPU :=
  let mask := shl 1 5
  let ident := shr (band mask cpu.ir) 5
  let dst := shr (band (shl 7 9) cpu.ir) 9
  let src1 := shr (band (shl 7 6) cpu.ir) 6
  if ident = 0 then
    let src2 := band 7 cpu.ir
    (cpu.readReg src2).bind fun b =>
    (cpu.readReg src1).bind fun a =>
    (cpu.writeReg dst (band b a)).bind fun cpu1 =>
    (cpu1.readReg src1).bind fun a1 =>
    (cpu1.readReg src2).bind fun b1 =>
    (cpu1.writeReg dst (band a1 b1)).bind fun cpu2 =>
    (cpu2.readReg dst).bind fun r =>
    some (generateCondition (calculateCondition r cpu2))
  else if ident = 1 then
    let imm := adjust (band 31 cpu.ir) 5
    (cpu.readReg src1).bind fun a =>
    (cpu.writeReg dst (band a imm)).bind fun cpu1 =>
    (cpu1.readReg src1).bind fun a1 =>
    (cpu1.writeReg dst (band a1 imm)).bind fun cpu2 =>
    (cpu2.readReg dst).bind fun r =>
    some (generateCondition (calculateCondition r cpu2))
  else some cpu

/-- Source function `ldr_instr` (LDR). -/
def ldr_instr (cpu : CPU) : Option CPU :=
  let dst := shr (band (shl 7 9) cpu.ir) 9
  let base := shr (band (shl 7 6) cpu.ir) 6
  let offset := adjust (band 63 cpu.ir) 6
  (cpu.readReg base).bind fun b =>
  (cpu.readMem (b + offset)).bind fun v =>
  (cpu.writeReg dst v).bind fun cpu1 =>
  (cpu1.readReg dst).bind fun r =>
  some (generateCondition (calculateCondition r cpu1))

/-- Source function `str_instr` (STR). -/
def str_instr (cpu : CPU) : Option CPU :=
  let src := shr (band (shl 7 9) cpu.ir) 9
  let base := shr (band (shl 7 6) cpu.ir) 6
  let offset := adjust (band 63 cpu.ir) 6
  (cpu.readReg base).bind fun b =>
  (cpu.readReg src).bind fun v =>
  (cpu.writeMem (b + offset) v).bind fun cpu1 =>
  (cpu1.readReg base).bind fun b1 =>
  (cpu1.readMem (b1 + offset)).bind fun r =>
  some (generateCondition (calculateCondition r cpu1))

/-- Source function `not_instr` (NOT). -/
def not_instr (cpu : CPU) : Option CPU :=
  let dst := shr (band (shl 7 9) cpu.ir) 9
  let src := shr (band (shl 7 6) cpu.ir) 6
  (cpu.readReg src).bind fun a =>
  (cpu.writeReg dst (bnot a)).bind fun cpu1 =>
  (cpu1.readReg dst).bind fun r =>
  some (generateCondition (calculateCondition r cpu1))

/-- Source function `ldi_instr` (LDI).  The load indexes memory with `mem[pcoffset]`, the raw offset,
exactly as in the source; `pcoffset1 = pc + pcoffset` is only printed.  The `printf`
before it reads `cpu->mem[cpu->pc]`. -/
def ldi_instr (cpu : CPU) : Option CPU :=
  let dst := shr (band cpu.ir 0x0e00) 9
  let pcoffset := adjust (band cpu.ir 0x01FF) 9
  (cpu.readMem cpu.pc).bind fun _ =>
  (cpu.readMem pcoffset).bind fun p =>
  (cpu.readMem p).bind fun v =>
  (cpu.writeReg dst v).bind fun cpu1 =>
  (cpu1.readReg dst).bind fun r =>
  some (generateCondition (calculateCondition r cpu1))

/-- Source function `sti_instr` (STI).  The store indexes memory with `mem[pc]`, exactly as in the
source; the `printf` before it reads `mem[pc]` and `mem[mem[pc]]`. -/
def sti_instr (cpu : CPU) : Option CPU :=
  let src := shr (band cpu.ir 0x0e00) 9
  (cpu.readMem cpu.pc).bind fun p =>
  (cpu.readMem p).bind fun _ =>
  (cpu.readReg src).bind fun v =>
  (cpu.writeMem p v).bind fun cpu1 =>
  (cpu1.readMem cpu1.pc).bind fun p1 =>
  (cpu1.readMem p1).bind fun r =>
  some (generateCondition (calculateCondition r cpu1))

/-- Source function `jump_instr` (JMP): `base = (ir & 0xe0) >> 6`, and `reg[base]` is assigned `pc`
before `pc` is read back from it, exactly as in the source. -/
def jump_instr (cpu : CPU) : Option CPU :=
  let base := shr (band cpu.ir 0xe0) 6
  (cpu.writeReg base cpu.pc).bind fun cpu1 =>
  (cpu1.readReg base).bind fun target =>
  some { cpu1 with pc := target }

/-- Source function `lea_instr` (LEA). -/
def lea_instr (cpu : CPU) : Option CPU :=
  let dst := shr (band cpu.ir 0x0e00) 9
  let pcoffset := adjust (band cpu.ir 0x01FF) 9
  (cpu.writeReg dst (cpu.pc + pcoffset)).bind fun cpu1 =>
  (cpu1.readReg dst).bind fun r =>
  some (generateCondition (calculateCondition r cpu1))

/-- The PUTS loop `while (cpu->mem[location] != 0) printf(..., cpu->mem[location++])`
started at `location = MEMLEN - n`: it only reads memory, so the result just records
whether it stops at a zero word (`true`) or runs past the end of `mem` (`false`). -/
def puts_scan (mem : Int → Int) : Nat → Bool
  | 0 => false
  | n + 1 => if mem (MEMLEN - (n + 1 : Nat)) = 0 then true else puts_scan mem n

/-- The character input of TRAP x20 / x23: `reg[0] = reg[0] & 0; scanf("%c", &input);
reg[0] = input`.  The result of `scanf` is not tested: at the end of input the local
`input` is left unassigned and the handler goes on with whatever it holds. -/
def read_char (cpu : CPU) : Option CPU :=
  (cpu.readReg 0).bind fun r0 =>
  (cpu.writeReg 0 (band r0 0)).bind fun cpu1 =>
  match cpu1.stdin with
  | [] => ({ cpu1 with input := fun n => cpu1.input (n + 1) } : CPU).writeReg 0 (cpu1.input 0)
  | input :: rest => ({ cpu1 with stdin := rest } : CPU).writeReg 0 input

/-- The `switch (trapCode)` of `trap_instr`. -/
def trap_switch (cpu : CPU) (trapCode : Int) : Option CPU :=
  if trapCode = 0x20 then read_char cpu
  else if trapCode = 0x21 then some cpu
  else if trapCode = 0x22 then
    (cpu.readReg 0).bind fun location =>
    if 0 ≤ location ∧ location < MEMLEN ∧
        puts_scan cpu.mem (MEMLEN - location).toNat = true
    then some cpu else none
  else if trapCode = 0x23 then read_char cpu
  else if trapCode = 0x24 then some (halt_processor cpu)
  else if trapCode = 0x25 then some (halt_processor cpu)
  else some cpu

/-- Source function `trap_instr` (TRAP): save `pc` in `reg[7]`, run the trap, `pc = reg[7]`. -/
def trap_instr (cpu : CPU) : Option CPU :=
  (cpu.writeReg 7 cpu.pc).bind fun cpu1 =>
  let trapCode := band cpu1.ir 0xFF
  (trap_switch cpu1 trapCode).bind fun cpu2 =>
  (cpu2.readReg 7).bind fun r7 =>
  some { cpu2 with pc := r7 }

/-! ## The instruction cycle -/

/-- The `switch (cpu->opcode)` of `one_instruction_cycle`. -/
def dispatch (cpu : CPU) : Option CPU :=
  if cpu.opcode = 0x0 then branch_instr cpu
  else if cpu.opcode = 0x1 then add_instr cpu
  else if cpu.opcode = 0x2 then load_instr cpu
  else if cpu.opcode = 0x3 then store_instr cpu
  else if cpu.opcode = 0x4 then jump_subr_instr cpu
  else if cpu.opcode = 0x5 then and_instr cpu
  else if cpu.opcode = 0x6 then ldr_instr cpu
  else if cpu.opcode = 0x7 then str_instr cpu
  else if cpu.opcode = 0x8 then some (halt_processor cpu)
  else if cpu.opcode = 0x9 then not_instr cpu
  else if cpu.opcode = 0xA then ldi_instr cpu
  else if cpu.opcode = 0xB then sti_instr cpu
  else if cpu.opcode = 0xC then jump_instr cpu
  else if cpu.opcode = 0xD then some (halt_processor cpu)
  else if cpu.opcode = 0xE then lea_instr cpu
  else if cpu.opcode = 0xF then trap_instr cpu
  else some cpu

/-- Source function `one_instruction_cycle`.  When `pc >= MEMLEN` the source clears `running` and goes
on to the fetch, which then indexes `mem` out of range. -/
def one_instruction_cycle (cpu : CPU) : Option CPU :=
  if cpu.running = 0 then some cpu
  else
    let cpu1 := if cpu.pc ≥ MEMLEN then { cpu with running := 0 } else cpu
    (cpu1.readMem cpu1.pc).bind fun w =>
    let cpu2 := { cpu1 with ir := w, pc := cpu1.pc + 1 }
    let cpu3 := { cpu2 with opcode := shr (band cpu2.ir 0xF000) 12 }
    dispatch cpu3

/-- Source function `manyInstructionCycles`: the loop `for (i = 0; i < nbr_cycles; i++)
one_instruction_cycle(cpu)`, with the number of iterations as recursion argument. -/
def manyInstructionCycles (cpu : CPU) : Nat → Option CPU
  | 0 => some cpu
  | n + 1 => (one_instruction_cycle cpu).bind fun cpu1 => manyInstructionCycles cpu1 n

end LC3


namespace LC3

/-! ## The batch step of the specification -/

/-- Specification-side `step_many(n)`, written from the words of the specification:
invoke `step()` up to `n` times, stopping early if the state becomes halted. -/
def step_many : Nat → CPU → Option CPU
  | 0, s => some s
  | n + 1, s =>
    (one_instruction_cycle s).bind fun s1 =>
      if s1.running = 0 then some s1 else step_many n s1

/-! ## Concrete states used as examples -/

/-- A running machine about to fetch the ADD word `0x1025` from the last cell,
address `0xFFFF`. -/
def last_cell_example : CPU :=
  { mem := fun a => if a = 65535 then 0x1025 else 0, reg := fun _ => 0, pc := 65535,
    running := 1, cc := 2, ir := 0, opcode := 0, origin := 0, condition := 'Z',
    stdin := [], input := fun _ => 0 }

/-- A running machine about to execute `0x6040`, LDR R0, R1, #0, with `R1 = -1`
(the word `0xFFFF`). -/
def ldr_high_base_example : CPU :=
  { mem := fun a => if a = 0 then 0x6040 else 0, reg := fun a => if a = 1 then -1 else 0,
    pc := 0, running := 1, cc := 2, ir := 0, opcode := 0, origin := 0, condition := 'Z',
    stdin := [], input := fun _ => 0 }

/-- A running machine at `pc = 0x3000` with the given condition code and the word
`w` in the cell at `pc`; registers `R1 = a`, `R2 = b`, the others zero. -/
def one_word_example (w cc a b : Int) : CPU :=
  { mem := fun x => if x = 0x3000 then w else 0,
    reg := fun x => if x = 1 then a else if x = 2 then b else 0,
    pc := 0x3000, running := 1, cc := cc, ir := 0, opcode := 0, origin := 0x3000,
    condition := 'Z', stdin := [], input := fun _ => 0 }

/-- A running machine at `pc = 0x3000` whose memory holds `w` at `0x3000`,
`0x4000` at `0x3001`, `0x5000` at `0x3002`, `42` at `0x5000`, `2` at address `1`, `7` at
address `2` and zero elsewhere; registers `R1 = a`, the others zero. -/
def indirect_example (w a : Int) : CPU :=
  { mem := fun x =>
      if x = 0x3000 then w else if x = 0x3001 then 0x4000 else if x = 0x3002 then 0x5000
      else if x = 0x5000 then 42 else if x = 1 then 2 else if x = 2 then 7 else 0,
    reg := fun x => if x = 1 then a else 0,
    pc := 0x3000, running := 1, cc := 2, ir := 0, opcode := 0, origin := 0x3000,
    condition := 'Z', stdin := [], input := fun _ => 0 }

/-- A running machine at `pc = 0x8000` about to execute `0xF021`, TRAP x21. -/
def high_trap_example : CPU :=
  { mem := fun x => if x = 0x8000 then -4063 else 0, reg := fun _ => 0, pc := 0x8000,
    running := 1, cc := 2, ir := 0, opcode := 0, origin := 0x8000, condition := 'Z',
    stdin := [], input := fun _ => 0 }

/-- An uninitialised `cpu_value` as `main` may find it on its stack: every memory cell
and register holds 7, the other fields are arbitrary. -/
def garbage_example : CPU :=
  { mem := fun _ => 7, reg := fun _ => 7, pc := 9, running := 0, cc := 0, ir := 3,
    opcode := 0, origin := 0, condition := 'x', stdin := [], input := fun _ => 0 }

/-- A running machine at `pc = 0x3000` about to execute `0xB200`, STI R1, #0, with
`R1 = 5`; the word after the instruction, at `0x3001`, holds its own address `0x3001`;
every other cell is zero. -/
def sti_self_example : CPU :=
  { mem := fun x => if x = 0x3000 then -19968 else if x = 0x3001 then 0x3001 else 0,
    reg := fun x => if x = 1 then 5 else 0,
    pc := 0x3000, running := 1, cc := 2, ir := 0, opcode := 0, origin := 0x3000,
    condition := 'Z', stdin := [], input := fun _ => 0 }

/-- A running machine at `pc = 0x3000` with `0x7283`, STR R1, R2, #3, followed by
`0x6683`, LDR R3, R2, #3; `R1 = 99`, `R2 = 0x4000`. -/
def str_ldr_example : CPU :=
  { mem := fun x => if x = 0x3000 then 0x7283 else if x = 0x3001 then 0x6683 else 0,
    reg := fun x => if x = 1 then 99 else if x = 2 then 0x4000 else 0,
    pc := 0x3000, running := 1, cc := 2, ir := 0, opcode := 0, origin := 0x3000,
    condition := 'Z', stdin := [], input := fun _ => 0 }

/-- A halted machine with an ADD word at address 0. -/
def halted_example : CPU :=
  { mem := fun a => if a = 0 then 0x1025 else 0, reg := fun _ => 0, pc := 0, running := 0,
    cc := 2, ir := 0, opcode := 0, origin := 0, condition := 'Z', stdin := [], input := fun _ => 0 }

end LC3

/-! # The decimal machine (`Decimal-Assembler.c`): its loader -/

namespace SDC

/-- Number of memory cells, `#define MEMLEN 100`. -/
def MEMLEN : Int := 100

/-- Assignment `mem[i] = v` to the global `int mem[MEMLEN]`; `none` when `i` is not an
index of the array. -/
def writeMem (mem : Int → Int) (i v : Int) : Option (Int → Int) :=
  if 0 ≤ i ∧ i < MEMLEN then some (fun a => if a = i then v else mem a) else none

/-- The `while (bytes_read != -1 && !done)` loop of `initialize_memory` over the lines of
the data file: `none` is a line on which `sscanf(buffer, "%d", ...)` returns 0 or -1
(skipped), `some v` a line that scans to `v`.  `loc > memlen` or a value outside
`-9999 .. 9999` sets `done`; otherwise `mem[loc++] = value_read`.  Returns the memory and
the final `loc`. -/
def load_loop (memlen : Int) (mem : Int → Int) (loc : Int) :
    List (Option Int) → Option ((Int → Int) × Int)
  | [] => some (mem, loc)
  | none :: rest => load_loop memlen mem loc rest
  | some value_read :: rest =>
    if loc > memlen then some (mem, loc)
    else if value_read > 9999 ∨ value_read < -9999 then some (mem, loc)
    else
      match writeMem mem loc value_read with
      | none => none
      | some mem1 => load_loop memlen mem1 (loc + 1) rest

/-- The loop `while (loc < memlen) { mem[loc] = 0; loc++; }`, with the number of
iterations still to run as recursion argument. -/
def zero_rest (mem : Int → Int) (loc : Int) : Nat → Option (Int → Int)
  | 0 => some mem
  | n + 1 =>
    match writeMem mem loc 0 with
    | none => none
    | some mem1 => zero_rest mem1 (loc + 1) n

/-- Source function `initialize_memory` of the decimal machine, on the lines of the data
file; `main` calls it with `memlen = MEMLEN`. -/
def initialize_memory (lines : List (Option Int)) (mem : Int → Int) (memlen : Int) :
    Option (Int → Int) :=
  match load_loop memlen mem 0 lines with
  | none => none
  | some (mem1, loc) => zero_rest mem1 loc (memlen - loc).toNat

end SDC

namespace LC3

/-! ## Bit fields of an instruction word -/

theorem nat_and_field (x j k : Nat) :
    x &&& ((2 ^ k - 1) <<< j) = ((x >>> j) % 2 ^ k) <<< j := by
  apply Nat.eq_of_testBit_eq
  intro i
  simp only [Nat.testBit_and, Nat.testBit_shiftLeft, Nat.testBit_mod_two_pow,
    Nat.testBit_shiftRight, Nat.testBit_two_pow_sub_one]
  by_cases h : j ≤ i
  · have : j + (i - j) = i := by omega
    simp [h, this, Bool.and_comm]
  · simp [h]

theorem emod_ediv_emod (w : Int) (j k : Nat) (h : j + k ≤ 32) :
    w % 4294967296 / 2 ^ j % 2 ^ k = w / 2 ^ j % 2 ^ k := by
  have e1 : (4294967296 : Int) = 2 ^ j * (2 ^ k * 2 ^ (32 - j - k)) := by
    rw [← pow_add, ← pow_add]
    have : j + (k + (32 - j - k)) = 32 := by omega
    rw [this]; norm_num
  have hj : (2 : Int) ^ j ≠ 0 := by positivity
  rw [Int.emod_def w 4294967296]
  generalize w / 4294967296 = q
  rw [e1, sub_eq_add_neg, mul_assoc, ← mul_neg, Int.add_mul_ediv_left _ _ hj, mul_assoc,
    ← mul_neg, Int.add_mul_emod_self_left]

theorem band_comm (a b : Int) : band a b = band b a := by
  unfold band; rw [Nat.and_comm]

/-- Masking with `k` one-bits starting at bit `j` selects that field of the word. -/
theorem band_field (w : Int) (j k : Nat) (h : j + k ≤ 31) :
    band w ((2 ^ k - 1) * 2 ^ j) = w / 2 ^ j % 2 ^ k * 2 ^ j := by
  have hk1 : (1 : Int) ≤ 2 ^ k := one_le_pow₀ (by norm_num)
  have hjp : (0 : Int) < 2 ^ j := by positivity
  have hkj : (2 : Int) ^ k * 2 ^ j ≤ 2147483648 := by
    rw [← pow_add]
    calc (2 : Int) ^ (k + j) ≤ 2 ^ 31 := pow_le_pow_right₀ (by norm_num) (by omega)
      _ = 2147483648 := by norm_num
  have hm0 : (0 : Int) ≤ (2 ^ k - 1) * 2 ^ j := by nlinarith
  have hm1 : ((2 : Int) ^ k - 1) * 2 ^ j < 2147483648 := by nlinarith
  have hmt : (((2 : Int) ^ k - 1) * 2 ^ j % 4294967296).toNat = (2 ^ k - 1) <<< j := by
    rw [Int.emod_eq_of_lt hm0 (by omega), Nat.shiftLeft_eq]
    have : (((2 ^ k - 1) * 2 ^ j : Nat) : Int) = (2 ^ k - 1) * 2 ^ j := by
      have : 1 ≤ 2 ^ k := Nat.one_le_two_pow
      push_cast [this]; rfl
    rw [← this, Int.toNat_ofNat]
  have hx : (((w % 4294967296).toNat : Nat) : Int) = w % 4294967296 :=
    Int.toNat_of_nonneg (Int.emod_nonneg _ (by norm_num))
  unfold band
  rw [hmt, nat_and_field, Nat.shiftLeft_eq, Nat.shiftRight_eq_div_pow]
  have hc : Int.ofNat ((w % 4294967296).toNat / 2 ^ j % 2 ^ k * 2 ^ j)
      = w / 2 ^ j % 2 ^ k * 2 ^ j := by
    simp only [Int.ofNat_eq_coe]
    push_cast
    rw [hx, emod_ediv_emod w j k (by omega)]
  rw [hc]
  have h0 : 0 ≤ w / 2 ^ j % 2 ^ k := Int.emod_nonneg _ (by positivity)
  have h1 : w / 2 ^ j % 2 ^ k < 2 ^ k := Int.emod_lt_of_pos _ (by positivity)
  have h2 : 0 ≤ w / 2 ^ j % 2 ^ k * 2 ^ j := by positivity
  have h3 : w / 2 ^ j % 2 ^ k * 2 ^ j < 2147483648 := by nlinarith
  unfold toInt32
  omega

theorem opcode_field (w : Int) : shr (band w 0xF000) 12 = w / 4096 % 16 := by
  have h := band_field w 12 4 (by norm_num)
  norm_num at h
  rw [h]; unfold shr; omega

theorem field_11_9 (w : Int) : shr (band (shl 7 9) w) 9 = w / 512 % 8 := by
  have h := band_field w 9 3 (by norm_num)
  norm_num at h
  rw [band_comm]; unfold shl; norm_num; rw [h]; unfold shr; omega

theorem field_11_9r (w : Int) : shr (band w 0x0e00) 9 = w / 512 % 8 := by
  have h := band_field w 9 3 (by norm_num)
  norm_num at h
  rw [h]; unfold shr; omega

theorem field_8_6 (w : Int) : shr (band (shl 7 6) w) 6 = w / 64 % 8 := by
  have h := band_field w 6 3 (by norm_num)
  norm_num at h
  rw [band_comm]; unfold shl; norm_num; rw [h]; unfold shr; omega

theorem field_5 (w : Int) : shr (band (shl 1 5) w) 5 = w / 32 % 2 := by
  have h := band_field w 5 1 (by norm_num)
  norm_num at h
  rw [band_comm]; unfold shl; norm_num; rw [h]; unfold shr; omega

theorem field_11 (w : Int) : shr (band w (shl 1 11)) 11 = w / 2048 % 2 := by
  have h := band_field w 11 1 (by norm_num)
  norm_num at h
  unfold shl; norm_num; rw [h]; unfold shr; omega

theorem field_2_0 (w : Int) : band 7 w = w % 8 := by
  have h := band_field w 0 3 (by norm_num)
  norm_num at h
  rw [band_comm, h]

theorem field_4_0 (w : Int) : band 31 w = w % 32 := by
  have h := band_field w 0 5 (by norm_num)
  norm_num at h
  rw [band_comm, h]

theorem field_5_0 (w : Int) : band 63 w = w % 64 := by
  have h := band_field w 0 6 (by norm_num)
  norm_num at h
  rw [band_comm, h]

theorem field_8_0 (w : Int) : band 511 w = w % 512 := by
  have h := band_field w 0 9 (by norm_num)
  norm_num at h
  rw [band_comm, h]

theorem field_8_0r (w : Int) : band w 0x01FF = w % 512 := by
  have h := band_field w 0 9 (by norm_num)
  norm_num at h
  rw [h]

theorem field_10_0 (w : Int) : band w 0x7FF = w % 2048 := by
  have h := band_field w 0 11 (by norm_num)
  norm_num at h
  rw [h]

theorem field_7_0 (w : Int) : band w 0xFF = w % 256 := by
  have h := band_field w 0 8 (by norm_num)
  norm_num at h
  rw [h]

theorem field_jsrr_base (w : Int) : band w 0x1c0 = w / 64 % 8 * 64 := by
  have h := band_field w 6 3 (by norm_num)
  norm_num at h
  rw [h]

theorem field_jmp_base (w : Int) : shr (band w 0xe0) 6 = w / 64 % 4 := by
  have h := band_field w 5 3 (by norm_num)
  norm_num at h
  rw [h]; unfold shr; omega

theorem band_zero (a : Int) : band a 0 = 0 := by
  have h := band_field a 0 0 (by norm_num)
  norm_num at h
  exact h

theorem nat_and_compl (m n : Nat) (hm : m < 2 ^ 32) (hn : n < 2 ^ 32) :
    m &&& (2 ^ 32 - (n + 1)) = Nat.ldiff m n := by
  apply Nat.eq_of_testBit_eq
  intro i
  rw [Nat.testBit_and, Nat.testBit_two_pow_sub_succ hn, Nat.testBit_ldiff]
  by_cases hi : i < 32
  · simp [hi]
  · have : m < 2 ^ i := lt_of_lt_of_le hm (Nat.pow_le_pow_right (by norm_num) (by omega))
    simp [Nat.testBit_lt_two_pow this]

theorem nat_compl_and_compl (m n : Nat) (hm : m < 2 ^ 32) (hn : n < 2 ^ 32) :
    (2 ^ 32 - (m + 1)) &&& (2 ^ 32 - (n + 1)) = 2 ^ 32 - ((m ||| n) + 1) := by
  have hmn : m ||| n < 2 ^ 32 := Nat.or_lt_two_pow hm hn
  apply Nat.eq_of_testBit_eq
  intro i
  rw [Nat.testBit_and, Nat.testBit_two_pow_sub_succ hn, Nat.testBit_two_pow_sub_succ hm,
    Nat.testBit_two_pow_sub_succ hmn, Nat.testBit_or]
  cases decide (i < 32) <;> cases m.testBit i <;> cases n.testBit i <;> rfl

/-- On operands in the range of a 16-bit word, the C `&` is the bitwise and of the
integers, and its value is again in that range. -/
theorem band_eq_land (a b : Int) (ha0 : -32768 ≤ a) (ha1 : a ≤ 32767) (hb0 : -32768 ≤ b)
    (hb1 : b ≤ 32767) :
    band a b = Int.land a b ∧ -32768 ≤ band a b ∧ band a b ≤ 32767 := by
  unfold band toInt32
  cases a with
  | ofNat m =>
    cases b with
    | ofNat n =>
      have h4 : Int.land (Int.ofNat m) (Int.ofNat n) = ((m &&& n : Nat) : Int) := rfl
      rw [h4]
      simp only [Int.ofNat_eq_coe] at *
      have h1 : ((m : Int) % 4294967296).toNat = m := by omega
      have h2 : ((n : Int) % 4294967296).toNat = n := by omega
      have h3 : m &&& n ≤ m := Nat.and_le_left
      rw [h1, h2]
      omega
    | negSucc n =>
      have h4 : Int.land (Int.ofNat m) (Int.negSucc n) = ((Nat.ldiff m n : Nat) : Int) := rfl
      rw [h4]
      simp only [Int.ofNat_eq_coe, Int.negSucc_eq] at *
      have h1 : ((m : Int) % 4294967296).toNat = m := by omega
      have h2 : ((-((n : Int) + 1)) % 4294967296).toNat = 2 ^ 32 - (n + 1) := by omega
      have h3 : m &&& (2 ^ 32 - (n + 1)) ≤ m := Nat.and_le_left
      have h5 := nat_and_compl m n (by omega) (by omega)
      rw [h1, h2, ← h5]
      omega
  | negSucc m =>
    cases b with
    | ofNat n =>
      have h4 : Int.land (Int.negSucc m) (Int.ofNat n) = ((Nat.ldiff n m : Nat) : Int) := rfl
      rw [h4]
      simp only [Int.ofNat_eq_coe, Int.negSucc_eq] at *
      have h1 : ((n : Int) % 4294967296).toNat = n := by omega
      have h2 : ((-((m : Int) + 1)) % 4294967296).toNat = 2 ^ 32 - (m + 1) := by omega
      have h3 : n &&& (2 ^ 32 - (m + 1)) ≤ n := Nat.and_le_left
      have h5 := nat_and_compl n m (by omega) (by omega)
      rw [h1, h2, Nat.and_comm, ← h5]
      omega
    | negSucc n =>
      have h4 : Int.land (Int.negSucc m) (Int.negSucc n) = Int.negSucc (m ||| n) := rfl
      rw [h4]
      simp only [Int.ofNat_eq_coe, Int.negSucc_eq] at *
      have h1 : ((-((n : Int) + 1)) % 4294967296).toNat = 2 ^ 32 - (n + 1) := by omega
      have h2 : ((-((m : Int) + 1)) % 4294967296).toNat = 2 ^ 32 - (m + 1) := by omega
      have h5 := nat_compl_and_compl m n (by omega) (by omega)
      have h6 : m ||| n < 2 ^ 15 := Nat.or_lt_two_pow (by omega) (by omega)
      rw [h1, h2, h5]
      omega

theorem band_pat (x y : Int) :
    (band x y % 4294967296).toNat =
      (x % 4294967296).toNat &&& (y % 4294967296).toNat := by
  have hy : (y % 4294967296).toNat < 2 ^ 32 := by omega
  have h : (x % 4294967296).toNat &&& (y % 4294967296).toNat < 2 ^ 32 :=
    Nat.and_lt_two_pow _ hy
  unfold band toInt32
  generalize (x % 4294967296).toNat &&& (y % 4294967296).toNat = N at h ⊢
  simp only [Int.ofNat_eq_coe]
  omega

/-- Repeating an operand of `&` changes nothing. -/
theorem band_absorb (x y : Int) : band (band x y) y = band x y := by
  have h := band_pat x y
  unfold band at h ⊢
  rw [h, Nat.and_assoc, Nat.and_self]

theorem band_absorb_left (x y : Int) : band (band y x) y = band x y := by
  rw [band_comm y x, band_absorb]

theorem band_absorb_right (x y : Int) : band x (band y x) = band x y := by
  rw [band_comm x (band y x), band_absorb, band_comm]

theorem band_self_twice (x : Int) : band (band x x) (band x x) = band x x := by
  have h := band_pat x x
  unfold band at h ⊢
  rw [h, Nat.and_self, Nat.and_self]

/-- The inline sign adjustment computes the two's-complement value of a 5-bit field. -/
theorem adjust_5 (w : Int) :
    adjust (w % 32) 5 = if w % 32 < 16 then w % 32 else w % 32 - 32 := by
  unfold adjust shr
  norm_num
  split_ifs <;> omega

theorem adjust_6 (w : Int) :
    adjust (w % 64) 6 = if w % 64 < 32 then w % 64 else w % 64 - 64 := by
  unfold adjust shr
  norm_num
  split_ifs <;> omega

theorem adjust_9 (w : Int) :
    adjust (w % 512) 9 = if w % 512 < 256 then w % 512 else w % 512 - 512 := by
  unfold adjust shr
  norm_num
  split_ifs <;> omega

theorem adjust_11 (w : Int) :
    adjust (w % 2048) 11 = if w % 2048 < 1024 then w % 2048 else w % 2048 - 2048 := by
  unfold adjust shr
  norm_num
  split_ifs <;> omega

theorem readReg_field (cpu : CPU) (x : Int) (n : Int) (hn : 0 < n) (h8 : n ≤ 8) :
    cpu.readReg (x % n) = some (cpu.reg (x % n)) := by
  have h0 := Int.emod_nonneg x (ne_of_gt hn)
  have h1 := Int.emod_lt_of_pos x hn
  unfold CPU.readReg NREG
  rw [if_pos ⟨h0, by omega⟩]

theorem writeReg_field (cpu : CPU) (x v : Int) (n : Int) (hn : 0 < n) (h8 : n ≤ 8) :
    cpu.writeReg (x % n) v =
      some { cpu with reg := fun a => if a = x % n then toWord v else cpu.reg a } := by
  have h0 := Int.emod_nonneg x (ne_of_gt hn)
  have h1 := Int.emod_lt_of_pos x hn
  unfold CPU.writeReg NREG
  rw [if_pos ⟨h0, by omega⟩]

/-- Fetch and decode of a running state whose `pc` addresses a memory cell. -/
theorem fetch_eq (s : CPU) (hrun : s.running ≠ 0) (h0 : 0 ≤ s.pc) (h1 : s.pc < MEMLEN) :
    one_instruction_cycle s =
      dispatch { s with ir := s.mem s.pc, pc := s.pc + 1,
                        opcode := s.mem s.pc / 4096 % 16 } := by
  unfold one_instruction_cycle
  have h2 : ¬ s.pc ≥ MEMLEN := by omega
  simp only [hrun, h2, if_false, CPU.readMem, h0, h1, and_self, if_true, Option.bind,
    opcode_field]


/-! ## Frame lemmas for the condition-code helpers -/

@[simp] theorem calculateCondition_mem (r : Int) (c : CPU) :
    (calculateCondition r c).mem = c.mem := by
  unfold calculateCondition; split_ifs <;> rfl

@[simp] theorem calculateCondition_reg (r : Int) (c : CPU) :
    (calculateCondition r c).reg = c.reg := by
  unfold calculateCondition; split_ifs <;> rfl

@[simp] theorem calculateCondition_pc (r : Int) (c : CPU) :
    (calculateCondition r c).pc = c.pc := by
  unfold calculateCondition; split_ifs <;> rfl

@[simp] theorem calculateCondition_running (r : Int) (c : CPU) :
    (calculateCondition r c).running = c.running := by
  unfold calculateCondition; split_ifs <;> rfl

@[simp] theorem calculateCondition_stdin (r : Int) (c : CPU) :
    (calculateCondition r c).stdin = c.stdin := by
  unfold calculateCondition; split_ifs <;> rfl

@[simp] theorem calculateCondition_ir (r : Int) (c : CPU) :
    (calculateCondition r c).ir = c.ir := by
  unfold calculateCondition; split_ifs <;> rfl

@[simp] theorem calculateCondition_origin (r : Int) (c : CPU) :
    (calculateCondition r c).origin = c.origin := by
  unfold calculateCondition; split_ifs <;> rfl

@[simp] theorem calculateCondition_cc (r : Int) (c : CPU) :
    (calculateCondition r c).cc = if r < 0 then 4 else if r = 0 then 2 else 1 := by
  unfold calculateCondition
  split_ifs <;> first | rfl | omega

@[simp] theorem generateCondition_mem (c : CPU) : (generateCondition c).mem = c.mem := by
  unfold generateCondition; split_ifs <;> rfl

@[simp] theorem generateCondition_reg (c : CPU) : (generateCondition c).reg = c.reg := by
  unfold generateCondition; split_ifs <;> rfl

@[simp] theorem generateCondition_pc (c : CPU) : (generateCondition c).pc = c.pc := by
  unfold generateCondition; split_ifs <;> rfl

@[simp] theorem generateCondition_running (c : CPU) :
    (generateCondition c).running = c.running := by
  unfold generateCondition; split_ifs <;> rfl

@[simp] theorem generateCondition_cc (c : CPU) : (generateCondition c).cc = c.cc := by
  unfold generateCondition; split_ifs <;> rfl

@[simp] theorem generateCondition_stdin (c : CPU) :
    (generateCondition c).stdin = c.stdin := by
  unfold generateCondition; split_ifs <;> rfl

@[simp] theorem generateCondition_ir (c : CPU) : (generateCondition c).ir = c.ir := by
  unfold generateCondition; split_ifs <;> rfl

@[simp] theorem generateCondition_origin (c : CPU) :
    (generateCondition c).origin = c.origin := by
  unfold generateCondition; split_ifs <;> rfl

/-! ## The loader in closed form -/

theorem toWord_zero : toWord 0 = 0 := by
  unfold toWord; norm_num

theorem load_lines_words (ws : List Int) :
    ∀ (cpu : CPU) (loc : Int), 0 ≤ loc → loc + ws.length ≤ MEMLEN →
      load_lines cpu loc (ws.map some) =
        some ({ cpu with
                mem := fun a =>
                  if loc ≤ a ∧ a < loc + ws.length then toWord (ws.getD (a - loc).toNat 0)
                  else cpu.mem a },
              loc + ws.length) := by
  induction ws with
  | nil =>
    intro cpu loc _ _
    have hm : (fun a : Int =>
        if loc ≤ a ∧ a < loc + ([] : List Int).length
        then toWord (([] : List Int).getD (a - loc).toNat 0) else cpu.mem a) = cpu.mem := by
      funext a
      rw [if_neg]
      simp only [List.length_nil, Nat.cast_zero, add_zero]
      omega
    rw [hm]
    simp only [List.map_nil, load_lines, List.length_nil, Nat.cast_zero, add_zero]
  | cons v ws ih =>
    intro cpu loc h0 h1
    simp only [List.length_cons, Nat.cast_add, Nat.cast_one] at h1
    have hw : cpu.writeMem loc v =
        some { cpu with mem := fun a => if a = loc then toWord v else cpu.mem a } := by
      unfold CPU.writeMem
      rw [if_pos ⟨h0, by omega⟩]
    simp only [List.map_cons, load_lines, hw]
    rw [ih _ (loc + 1) (by omega) (by omega)]
    simp only [List.length_cons, Nat.cast_add, Nat.cast_one, Option.some.injEq, Prod.mk.injEq]
    refine ⟨?_, by ring⟩
    congr 1
    funext a
    by_cases ha : a = loc
    · subst ha
      rw [if_neg (by omega), if_pos rfl, if_pos (by omega)]
      simp
    · by_cases hr : loc + 1 ≤ a ∧ a < loc + 1 + ws.length
      · have h4 : (a - loc).toNat = (a - (loc + 1)).toNat + 1 := by omega
        rw [if_pos hr, if_pos (by omega), h4, List.getD_cons_succ]
      · rw [if_neg hr, if_neg ha, if_neg (by omega)]

theorem zero_rest_eq (n : Nat) :
    ∀ (cpu : CPU) (loc : Int), 0 ≤ loc → loc + n ≤ MEMLEN →
      zero_rest cpu loc n =
        some { cpu with mem := fun a => if loc ≤ a ∧ a < loc + n then 0 else cpu.mem a } := by
  induction n with
  | zero =>
    intro cpu loc _ _
    have hm : (fun a : Int => if loc ≤ a ∧ a < loc + ((0 : Nat) : Int) then 0 else cpu.mem a)
        = cpu.mem := by
      funext a
      rw [if_neg]
      omega
    rw [hm]
    simp only [zero_rest]
  | succ n ih =>
    intro cpu loc h0 h1
    have hw : cpu.writeMem loc 0 =
        some { cpu with mem := fun a => if a = loc then 0 else cpu.mem a } := by
      unfold CPU.writeMem
      rw [if_pos ⟨h0, by omega⟩, toWord_zero]
    simp only [zero_rest, hw]
    rw [ih _ (loc + 1) (by omega) (by omega)]
    simp only [Option.some.injEq]
    congr 1
    funext a
    by_cases ha : a = loc
    · subst ha
      rw [if_neg (by omega), if_pos rfl, if_pos (by omega)]
    · by_cases hr : loc + 1 ≤ a ∧ a < loc + 1 + n
      · rw [if_pos hr, if_pos (by omega)]
      · rw [if_neg hr, if_neg ha, if_neg (by omega)]

/-- The state `main` hands to the command loop, for an origin and word list that fit
into memory. -/
theorem load_eq (prior : CPU) (o : Int) (ws : List Int) (h0 : 0 ≤ o)
    (h1 : o + ws.length ≤ MEMLEN) :
    load o ws prior =
      some { mem := fun a =>
               if o + ws.length ≤ a ∧ a < MEMLEN then 0
               else if o ≤ a ∧ a < o + ws.length then toWord (ws.getD (a - o).toNat 0)
               else prior.mem a,
             reg := fun a => if 0 ≤ a ∧ a < NREG then 0 else prior.reg a,
             pc := o, running := 1, cc := 2, ir := 0, opcode := prior.opcode,
             origin := o, condition := prior.condition, stdin := prior.stdin,
             input := prior.input } := by
  unfold load initialize_memory
  simp only []
  rw [load_lines_words ws _ o h0 h1]
  simp only []
  rw [zero_rest_eq _ _ _ (by omega) (by omega)]
  simp only [initialize_control_unit, Option.some.injEq]
  congr 1
  funext a
  have : (o + ws.length + ((MEMLEN - (o + ws.length)).toNat : Int)) = MEMLEN := by omega
  rw [this]


/-! ## ADD -/

/-- One cycle on an ADD word in immediate mode, with the fields of the word named. -/
theorem step_add_imm (s : CPU) (hrun : s.running ≠ 0) (h0 : 0 ≤ s.pc) (h1 : s.pc < MEMLEN)
    (hop : s.mem s.pc / 4096 % 16 = 1) (hmode : s.mem s.pc / 32 % 2 = 1)
    (d a imm : Int) (hd : d = s.mem s.pc / 512 % 8) (ha : a = s.mem s.pc / 64 % 8)
    (himm : imm = if s.mem s.pc % 32 < 16 then s.mem s.pc % 32 else s.mem s.pc % 32 - 32) :
    ∃ s', one_instruction_cycle s = some s' ∧
      s'.reg = (fun x =>
        if x = d then toWord ((if a = d then toWord (s.reg a + imm) else s.reg a) + imm)
        else s.reg x) ∧
      s'.cc = (if toWord ((if a = d then toWord (s.reg a + imm) else s.reg a) + imm) < 0 then 4
               else if toWord ((if a = d then toWord (s.reg a + imm) else s.reg a) + imm) = 0
               then 2 else 1) ∧
      s'.pc = s.pc + 1 ∧ s'.mem = s.mem ∧ s'.running = s.running ∧ s'.stdin = s.stdin := by
  subst hd ha himm
  rw [fetch_eq s hrun h0 h1]
  simp only [dispatch, hop, add_instr, field_5, field_11_9, field_8_6, field_4_0, adjust_5,
    hmode]
  simp [readReg_field, writeReg_field]
  funext x
  split_ifs <;> rfl

/-- What `load` establishes, field by field. -/
theorem load_state (prior : CPU) (o : Int) (ws : List Int) (h0 : 0 ≤ o)
    (h1 : o + ws.length ≤ MEMLEN) :
    ∃ s, load o ws prior = some s ∧ s.pc = o ∧ s.origin = o ∧ s.running = 1 ∧ s.cc = 2 ∧
      s.stdin = prior.stdin ∧
      (∀ i, 0 ≤ i → i < 8 → s.reg i = 0) ∧
      (∀ a, o ≤ a → a < o + ws.length → s.mem a = toWord (ws.getD (a - o).toNat 0)) ∧
      (∀ a, o + ws.length ≤ a → a < MEMLEN → s.mem a = 0) ∧
      (∀ a, a < o → s.mem a = prior.mem a) := by
  refine ⟨_, load_eq prior o ws h0 h1, rfl, rfl, rfl, rfl, rfl, ?_, ?_, ?_, ?_⟩
  · intro i hi0 hi1
    show (if 0 ≤ i ∧ i < NREG then 0 else prior.reg i) = 0
    rw [if_pos ⟨hi0, hi1⟩]
  · intro a ha0 ha1
    show (if o + ws.length ≤ a ∧ a < MEMLEN then 0
      else if o ≤ a ∧ a < o + ws.length then toWord (ws.getD (a - o).toNat 0)
      else prior.mem a) = _
    rw [if_neg (by omega), if_pos ⟨ha0, ha1⟩]
  · intro a ha0 ha1
    show (if o + ws.length ≤ a ∧ a < MEMLEN then 0
      else if o ≤ a ∧ a < o + ws.length then toWord (ws.getD (a - o).toNat 0)
      else prior.mem a) = _
    rw [if_pos ⟨ha0, ha1⟩]
  · intro a ha
    show (if o + ws.length ≤ a ∧ a < MEMLEN then 0
      else if o ≤ a ∧ a < o + ws.length then toWord (ws.getD (a - o).toNat 0)
      else prior.mem a) = _
    rw [if_neg (by omega), if_neg (by omega)]

/-- C1: the state after `load(origin=0x3000, [0x1025])` followed by one cycle.  The word
`0x1025` is ADD R0, R0, #5; the handler assigns `reg[0] = reg[0] + 5` twice, so the cycle
leaves `reg[0] = 10` (not 5), with `pc = 0x3001` and `cc = 1` (Positive). -/
theorem add_immediate_after_load (prior : CPU) :
    ∃ s1 s2, load 0x3000 [0x1025] prior = some s1 ∧ one_instruction_cycle s1 = some s2 ∧
      s2.reg 0 = 10 ∧ s2.pc = 0x3001 ∧ s2.cc = 1 := by
  obtain ⟨s1, hl, hpc, -, hrun, -, -, hreg, hmem, -, -⟩ :=
    load_state prior 0x3000 [0x1025] (by norm_num) (by norm_num [MEMLEN])
  have hw : s1.mem s1.pc = 4133 := by
    rw [hpc, hmem 0x3000 (by norm_num) (by norm_num)]
    norm_num [toWord]
  obtain ⟨s2, hstep, hr, hcc, hpc2, -⟩ :=
    step_add_imm s1 (by rw [hrun]; norm_num) (by rw [hpc]; norm_num)
      (by rw [hpc]; norm_num [MEMLEN]) (by rw [hw]; norm_num) (by rw [hw]; norm_num)
      0 0 5 (by rw [hw]; norm_num) (by rw [hw]; norm_num) (by rw [hw]; norm_num)
  have h00 : s1.reg 0 = 0 := hreg 0 (by norm_num) (by norm_num)
  refine ⟨s1, s2, hl, hstep, ?_, ?_, ?_⟩
  · rw [hr]; norm_num [h00, toWord]
  · rw [hpc2, hpc]; norm_num
  · rw [hcc]; norm_num [h00, toWord]

/-! ## Halted states and repeated cycles -/

theorem halted_cycle (s : CPU) (h : s.running = 0) : one_instruction_cycle s = some s := by
  unfold one_instruction_cycle
  rw [if_pos h]

theorem halted_many_cycles (s : CPU) (h : s.running = 0) (n : Nat) :
    manyInstructionCycles s n = some s := by
  induction n with
  | zero => rfl
  | succ n ih => simp only [manyInstructionCycles, halted_cycle s h, Option.bind, ih]

/-- C2: on a halted state (`running = 0`) `one_instruction_cycle` returns the state it was
given, every field unchanged; hence any number of further cycles leaves it as it is. -/
theorem halted_cycle_is_noop (s : CPU) (h : s.running = 0) :
    one_instruction_cycle s = some s ∧ ∀ n, manyInstructionCycles s n = some s :=
  ⟨halted_cycle s h, halted_many_cycles s h⟩

theorem halted_cycle_is_noop_witness :
    halted_example.running = 0 ∧
      one_instruction_cycle halted_example = some halted_example ∧
      manyInstructionCycles halted_example 3 = some halted_example :=
  ⟨rfl, (halted_cycle_is_noop halted_example rfl).1,
    (halted_cycle_is_noop halted_example rfl).2 3⟩

/-- C3: for every state and every `n`, the unconditional `n`-iteration loop of
`manyInstructionCycles` produces the same result as `step_many n`, which stops at the
first halted state. -/
theorem manyInstructionCycles_eq_step_many (n : Nat) :
    ∀ s : CPU, manyInstructionCycles s n = step_many n s := by
  induction n with
  | zero => intro s; rfl
  | succ n ih =>
    intro s
    simp only [manyInstructionCycles, step_many]
    cases hstep : one_instruction_cycle s with
    | none => rfl
    | some s1 =>
      simp only [Option.bind]
      by_cases hr : s1.running = 0
      · rw [if_pos hr]
        exact halted_many_cycles s1 hr n
      · rw [if_neg hr]
        exact ih s1


/-! ## Dispatch on the opcode -/

theorem dispatch_0 (t : CPU) (h : t.opcode = 0) : dispatch t = branch_instr t := by
  unfold dispatch; simp [h]

theorem dispatch_1 (t : CPU) (h : t.opcode = 1) : dispatch t = add_instr t := by
  unfold dispatch; simp [h]

theorem dispatch_2 (t : CPU) (h : t.opcode = 2) : dispatch t = load_instr t := by
  unfold dispatch; simp [h]

theorem dispatch_3 (t : CPU) (h : t.opcode = 3) : dispatch t = store_instr t := by
  unfold dispatch; simp [h]

theorem dispatch_4 (t : CPU) (h : t.opcode = 4) : dispatch t = jump_subr_instr t := by
  unfold dispatch; simp [h]

theorem dispatch_5 (t : CPU) (h : t.opcode = 5) : dispatch t = and_instr t := by
  unfold dispatch; simp [h]

theorem dispatch_6 (t : CPU) (h : t.opcode = 6) : dispatch t = ldr_instr t := by
  unfold dispatch; simp [h]

theorem dispatch_7 (t : CPU) (h : t.opcode = 7) : dispatch t = str_instr t := by
  unfold dispatch; simp [h]

theorem dispatch_8 (t : CPU) (h : t.opcode = 8) : dispatch t = some (halt_processor t) := by
  unfold dispatch; simp [h]

theorem dispatch_9 (t : CPU) (h : t.opcode = 9) : dispatch t = not_instr t := by
  unfold dispatch; simp [h]

theorem dispatch_10 (t : CPU) (h : t.opcode = 10) : dispatch t = ldi_instr t := by
  unfold dispatch; simp [h]

theorem dispatch_11 (t : CPU) (h : t.opcode = 11) : dispatch t = sti_instr t := by
  unfold dispatch; simp [h]

theorem dispatch_12 (t : CPU) (h : t.opcode = 12) : dispatch t = jump_instr t := by
  unfold dispatch; simp [h]

theorem dispatch_13 (t : CPU) (h : t.opcode = 13) : dispatch t = some (halt_processor t) := by
  unfold dispatch; simp [h]

theorem dispatch_14 (t : CPU) (h : t.opcode = 14) : dispatch t = lea_instr t := by
  unfold dispatch; simp [h]

theorem dispatch_15 (t : CPU) (h : t.opcode = 15) : dispatch t = trap_instr t := by
  unfold dispatch; simp [h]

theorem dispatch_other (t : CPU) (h : ¬ (0 ≤ t.opcode ∧ t.opcode ≤ 15)) :
    dispatch t = some t := by
  have h0 : t.opcode ≠ 0 := by omega
  have h1 : t.opcode ≠ 1 := by omega
  have h2 : t.opcode ≠ 2 := by omega
  have h3 : t.opcode ≠ 3 := by omega
  have h4 : t.opcode ≠ 4 := by omega
  have h5 : t.opcode ≠ 5 := by omega
  have h6 : t.opcode ≠ 6 := by omega
  have h7 : t.opcode ≠ 7 := by omega
  have h8 : t.opcode ≠ 8 := by omega
  have h9 : t.opcode ≠ 9 := by omega
  have h10 : t.opcode ≠ 10 := by omega
  have h11 : t.opcode ≠ 11 := by omega
  have h12 : t.opcode ≠ 12 := by omega
  have h13 : t.opcode ≠ 13 := by omega
  have h14 : t.opcode ≠ 14 := by omega
  have h15 : t.opcode ≠ 15 := by omega
  unfold dispatch
  simp only [h0, h1, h2, h3, h4, h5, h6, h7, h8, h9, h10, h11, h12, h13, h14, h15, if_false]

/-! ## The handlers in closed form

Each statement rewrites a handler in terms of the fields of `ir`: the result state when
every index is inside its array, `none` otherwise. -/

theorem readMem_eq (c : CPU) (a : Int) (h0 : 0 ≤ a) (h1 : a < MEMLEN) :
    c.readMem a = some (c.mem a) := by
  unfold CPU.readMem; rw [if_pos ⟨h0, h1⟩]

theorem readMem_none (c : CPU) (a : Int) (h : ¬ (0 ≤ a ∧ a < MEMLEN)) :
    c.readMem a = none := by
  unfold CPU.readMem; rw [if_neg h]

theorem writeMem_eq (c : CPU) (a v : Int) (h0 : 0 ≤ a) (h1 : a < MEMLEN) :
    c.writeMem a v = some { c with mem := fun x => if x = a then toWord v else c.mem x } := by
  unfold CPU.writeMem; rw [if_pos ⟨h0, h1⟩]

theorem writeMem_none (c : CPU) (a v : Int) (h : ¬ (0 ≤ a ∧ a < MEMLEN)) :
    c.writeMem a v = none := by
  unfold CPU.writeMem; rw [if_neg h]

theorem branch_instr_eq (t : CPU) :
    branch_instr t =
      some (if t.ir = 0 then generateCondition t
            else if band t.cc (t.ir / 512 % 8) ≠ 0 then
              generateCondition { t with pc := t.pc + adjust (t.ir % 512) 9 }
            else t) := by
  unfold branch_instr
  simp only [field_11_9r, field_8_0r]
  split_ifs <;> rfl

theorem add_instr_reg_eq (t : CPU) (h : t.ir / 32 % 2 = 0) :
    add_instr t =
      some (generateCondition (calculateCondition
        (toWord (t.reg (t.ir / 64 % 8) + t.reg (t.ir % 8)))
        { t with reg := fun x =>
            if x = t.ir / 512 % 8 then toWord (t.reg (t.ir / 64 % 8) + t.reg (t.ir % 8))
            else t.reg x })) := by
  unfold add_instr
  simp only [field_5, field_11_9, field_8_6, field_2_0, h]
  simp [readReg_field, writeReg_field]

theorem not_instr_eq (t : CPU) :
    not_instr t =
      some (generateCondition (calculateCondition
        (toWord (bnot (t.reg (t.ir / 64 % 8))))
        { t with reg := fun x =>
            if x = t.ir / 512 % 8 then toWord (bnot (t.reg (t.ir / 64 % 8)))
            else t.reg x })) := by
  unfold not_instr
  simp only [field_11_9, field_8_6]
  simp [readReg_field, writeReg_field]

theorem lea_instr_eq (t : CPU) :
    lea_instr t =
      some (generateCondition (calculateCondition
        (toWord (t.pc + adjust (t.ir % 512) 9))
        { t with reg := fun x =>
            if x = t.ir / 512 % 8 then toWord (t.pc + adjust (t.ir % 512) 9)
            else t.reg x })) := by
  unfold lea_instr
  simp only [field_11_9r, field_8_0r]
  simp [readReg_field, writeReg_field]

theorem jump_instr_eq (t : CPU) :
    jump_instr t =
      some { t with
        reg := fun x => if x = t.ir / 64 % 4 then toWord t.pc else t.reg x,
        pc := toWord t.pc } := by
  unfold jump_instr
  simp only [field_jmp_base]
  simp [readReg_field, writeReg_field]

theorem load_instr_eq (t : CPU) :
    load_instr t =
      if 0 ≤ t.pc + adjust (t.ir % 512) 9 ∧ t.pc + adjust (t.ir % 512) 9 < MEMLEN then
        some (generateCondition (calculateCondition
          (toWord (t.mem (t.pc + adjust (t.ir % 512) 9)))
          { t with reg := fun x =>
              if x = t.ir / 512 % 8 then toWord (t.mem (t.pc + adjust (t.ir % 512) 9))
              else t.reg x }))
      else none := by
  unfold load_instr
  simp only [field_11_9, field_8_0]
  by_cases hr : 0 ≤ t.pc + adjust (t.ir % 512) 9 ∧ t.pc + adjust (t.ir % 512) 9 < MEMLEN
  · rw [if_pos hr, readMem_eq _ _ hr.1 hr.2]
    simp [readReg_field, writeReg_field]
  · rw [if_neg hr, readMem_none _ _ hr]
    rfl

theorem store_instr_eq (t : CPU) :
    store_instr t =
      if 0 ≤ t.pc + adjust (t.ir % 512) 9 ∧ t.pc + adjust (t.ir % 512) 9 < MEMLEN then
        some (generateCondition (calculateCondition (t.reg (t.ir / 512 % 8))
          { t with mem := fun x =>
              if x = t.pc + adjust (t.ir % 512) 9 then toWord (t.reg (t.ir / 512 % 8))
              else t.mem x }))
      else none := by
  unfold store_instr
  simp only [field_11_9, field_8_0]
  by_cases hr : 0 ≤ t.pc + adjust (t.ir % 512) 9 ∧ t.pc + adjust (t.ir % 512) 9 < MEMLEN
  · rw [if_pos hr]
    simp [readReg_field, writeMem_eq _ _ _ hr.1 hr.2]
  · rw [if_neg hr]
    simp [readReg_field, writeMem_none _ _ _ hr]

theorem ldr_instr_eq (t : CPU) :
    ldr_instr t =
      if 0 ≤ t.reg (t.ir / 64 % 8) + adjust (t.ir % 64) 6 ∧
         t.reg (t.ir / 64 % 8) + adjust (t.ir % 64) 6 < MEMLEN then
        some (generateCondition (calculateCondition
          (toWord (t.mem (t.reg (t.ir / 64 % 8) + adjust (t.ir % 64) 6)))
          { t with reg := fun x =>
              if x = t.ir / 512 % 8
              then toWord (t.mem (t.reg (t.ir / 64 % 8) + adjust (t.ir % 64) 6))
              else t.reg x }))
      else none := by
  unfold ldr_instr
  simp only [field_11_9, field_8_6, field_5_0]
  by_cases hr : 0 ≤ t.reg (t.ir / 64 % 8) + adjust (t.ir % 64) 6 ∧
      t.reg (t.ir / 64 % 8) + adjust (t.ir % 64) 6 < MEMLEN
  · rw [if_pos hr]
    simp [readReg_field, writeReg_field, readMem_eq _ _ hr.1 hr.2]
  · rw [if_neg hr]
    simp [readReg_field, readMem_none _ _ hr]

theorem str_instr_eq (t : CPU) :
    str_instr t =
      if 0 ≤ t.reg (t.ir / 64 % 8) + adjust (t.ir % 64) 6 ∧
         t.reg (t.ir / 64 % 8) + adjust (t.ir % 64) 6 < MEMLEN then
        some (generateCondition (calculateCondition (toWord (t.reg (t.ir / 512 % 8)))
          { t with mem := fun x =>
              if x = t.reg (t.ir / 64 % 8) + adjust (t.ir % 64) 6
              then toWord (t.reg (t.ir / 512 % 8))
              else t.mem x }))
      else none := by
  unfold str_instr
  simp only [field_11_9, field_8_6, field_5_0]
  by_cases hr : 0 ≤ t.reg (t.ir / 64 % 8) + adjust (t.ir % 64) 6 ∧
      t.reg (t.ir / 64 % 8) + adjust (t.ir % 64) 6 < MEMLEN
  · rw [if_pos hr]
    simp [readReg_field, writeMem_eq _ _ _ hr.1 hr.2, readMem_eq _ _ hr.1 hr.2]
  · rw [if_neg hr]
    simp [readReg_field, writeMem_none _ _ _ hr]

theorem add_instr_imm_eq (t : CPU) (h : t.ir / 32 % 2 = 1) :
    add_instr t =
      some (generateCondition (calculateCondition
        (toWord ((if t.ir / 64 % 8 = t.ir / 512 % 8
                  then toWord (t.reg (t.ir / 64 % 8) + adjust (t.ir % 32) 5)
                  else t.reg (t.ir / 64 % 8)) + adjust (t.ir % 32) 5))
        { t with reg := fun x =>
            if x = t.ir / 512 % 8 then
              toWord ((if t.ir / 64 % 8 = t.ir / 512 % 8
                       then toWord (t.reg (t.ir / 64 % 8) + adjust (t.ir % 32) 5)
                       else t.reg (t.ir / 64 % 8)) + adjust (t.ir % 32) 5)
            else t.reg x })) := by
  unfold add_instr
  simp only [field_5, field_11_9, field_8_6, field_4_0, h]
  simp [readReg_field, writeReg_field]
  congr 2
  congr 1
  funext x
  split_ifs <;> rfl

theorem and_instr_reg_eq (t : CPU) (h : t.ir / 32 % 2 = 0) :
    and_instr t =
      some (generateCondition (calculateCondition
        (toWord (band
          (if t.ir / 64 % 8 = t.ir / 512 % 8
           then toWord (band (t.reg (t.ir % 8)) (t.reg (t.ir / 64 % 8)))
           else t.reg (t.ir / 64 % 8))
          (if t.ir % 8 = t.ir / 512 % 8
           then toWord (band (t.reg (t.ir % 8)) (t.reg (t.ir / 64 % 8)))
           else t.reg (t.ir % 8))))
        { t with reg := fun x =>
            if x = t.ir / 512 % 8 then
              toWord (band
                (if t.ir / 64 % 8 = t.ir / 512 % 8
                 then toWord (band (t.reg (t.ir % 8)) (t.reg (t.ir / 64 % 8)))
                 else t.reg (t.ir / 64 % 8))
                (if t.ir % 8 = t.ir / 512 % 8
                 then toWord (band (t.reg (t.ir % 8)) (t.reg (t.ir / 64 % 8)))
                 else t.reg (t.ir % 8)))
            else t.reg x })) := by
  unfold and_instr
  simp only [field_5, field_11_9, field_8_6, field_2_0, h]
  simp [readReg_field, writeReg_field]
  congr 2
  congr 1
  funext x
  split_ifs <;> rfl

theorem and_instr_imm_eq (t : CPU) (h : t.ir / 32 % 2 = 1) :
    and_instr t =
      some (generateCondition (calculateCondition
        (toWord (band
          (if t.ir / 64 % 8 = t.ir / 512 % 8
           then toWord (band (t.reg (t.ir / 64 % 8)) (adjust (t.ir % 32) 5))
           else t.reg (t.ir / 64 % 8))
          (adjust (t.ir % 32) 5)))
        { t with reg := fun x =>
            if x = t.ir / 512 % 8 then
              toWord (band
                (if t.ir / 64 % 8 = t.ir / 512 % 8
                 then toWord (band (t.reg (t.ir / 64 % 8)) (adjust (t.ir % 32) 5))
                 else t.reg (t.ir / 64 % 8))
                (adjust (t.ir % 32) 5))
            else t.reg x })) := by
  unfold and_instr
  simp only [field_5, field_11_9, field_8_6, field_4_0, h]
  simp [readReg_field, writeReg_field]
  congr 2
  congr 1
  funext x
  split_ifs <;> rfl

theorem jump_subr_instr_jsr_eq (t : CPU) (h : t.ir / 2048 % 2 = 1) :
    jump_subr_instr t =
      some { t with
        reg := fun x => if x = 7 then toWord t.pc else t.reg x,
        pc := t.pc + adjust (t.ir % 2048) 11 } := by
  unfold jump_subr_instr
  simp only [field_11, field_10_0, h]
  simp [CPU.writeReg, NREG]

theorem jump_subr_instr_jsrr_eq (t : CPU) (h : t.ir / 2048 % 2 = 0) :
    jump_subr_instr t =
      if t.ir / 64 % 8 = 0 then
        some { t with
          reg := fun x => if x = 7 then toWord t.pc else t.reg x,
          pc := t.reg 0 }
      else none := by
  unfold jump_subr_instr
  simp only [field_11, field_jsrr_base, h]
  have hb0 := Int.emod_nonneg (t.ir / 64) (show (8 : Int) ≠ 0 by norm_num)
  have hne : ¬ (t.ir / 64 % 8 * 64 = 7) := by omega
  by_cases hb : t.ir / 64 % 8 = 0
  · simp [CPU.writeReg, CPU.readReg, NREG, hb]
  · have : ¬ (t.ir / 64 % 8 * 64 < 8) := by omega
    simp [CPU.writeReg, CPU.readReg, NREG, hb, hne, this]


theorem ldi_instr_pc (t t' : CPU) (h : ldi_instr t = some t') : t'.pc = t.pc := by
  unfold ldi_instr at h
  simp only [Option.bind_eq_some, CPU.readReg, CPU.writeReg, CPU.readMem,
    Option.ite_none_right_eq_some, Option.some.injEq] at h
  obtain ⟨_, _, _, _, _, _, _, ⟨_, rfl⟩, _, _, rfl⟩ := h
  simp

theorem sti_instr_pc (t t' : CPU) (h : sti_instr t = some t') : t'.pc = t.pc := by
  unfold sti_instr at h
  simp only [Option.bind_eq_some, CPU.readReg, CPU.writeMem, CPU.readMem,
    Option.ite_none_right_eq_some, Option.some.injEq] at h
  obtain ⟨_, _, _, _, _, _, _, ⟨_, rfl⟩, _, _, _, _, rfl⟩ := h
  simp

theorem read_char_frame (c c' : CPU) (h : read_char c = some c') :
    c'.pc = c.pc ∧ c'.mem = c.mem ∧ c'.cc = c.cc ∧ c'.running = c.running ∧
      ∀ i, i ≠ 0 → c'.reg i = c.reg i := by
  unfold read_char at h
  simp only [Option.bind_eq_some, CPU.readReg, CPU.writeReg,
    Option.ite_none_right_eq_some, Option.some.injEq] at h
  obtain ⟨_, _, c1, ⟨_, rfl⟩, h2⟩ := h
  cases hs : c.stdin with
  | nil =>
    simp only [hs] at h2
    obtain ⟨_, rfl⟩ := h2
    refine ⟨rfl, rfl, rfl, rfl, ?_⟩
    intro i hi
    simp [hi]
  | cons x rest =>
    simp only [hs] at h2
    obtain ⟨_, rfl⟩ := h2
    refine ⟨rfl, rfl, rfl, rfl, ?_⟩
    intro i hi
    simp [hi]

theorem trap_switch_frame (c c' : CPU) (code : Int) (h : trap_switch c code = some c') :
    c'.pc = c.pc ∧ c'.mem = c.mem ∧ c'.cc = c.cc ∧
      (c'.running = c.running ∨ c'.running = 0) ∧
      ∀ i, i ≠ 0 → c'.reg i = c.reg i := by
  unfold trap_switch at h
  split_ifs at h
  · obtain ⟨h1, h2, h3, h4, h5⟩ := read_char_frame c c' h
    exact ⟨h1, h2, h3, Or.inl h4, h5⟩
  · cases h; exact ⟨rfl, rfl, rfl, Or.inl rfl, fun _ _ => rfl⟩
  · simp only [Option.bind_eq_some, CPU.readReg, Option.ite_none_right_eq_some,
      Option.some.injEq] at h
    obtain ⟨_, _, _, rfl⟩ := h
    exact ⟨rfl, rfl, rfl, Or.inl rfl, fun _ _ => rfl⟩
  · obtain ⟨h1, h2, h3, h4, h5⟩ := read_char_frame c c' h
    exact ⟨h1, h2, h3, Or.inl h4, h5⟩
  · cases h; exact ⟨rfl, rfl, rfl, Or.inr rfl, fun _ _ => rfl⟩
  · cases h; exact ⟨rfl, rfl, rfl, Or.inr rfl, fun _ _ => rfl⟩
  · cases h; exact ⟨rfl, rfl, rfl, Or.inl rfl, fun _ _ => rfl⟩

theorem trap_instr_some (t t' : CPU) (h : trap_instr t = some t') :
    t'.pc = toWord t.pc ∧ t'.reg 7 = toWord t.pc ∧ t'.mem = t.mem ∧ t'.cc = t.cc ∧
      (t'.running = t.running ∨ t'.running = 0) ∧
      ∀ i, i ≠ 0 → i ≠ 7 → t'.reg i = t.reg i := by
  unfold trap_instr at h
  simp only [Option.bind_eq_some, CPU.readReg, CPU.writeReg,
    Option.ite_none_right_eq_some, Option.some.injEq] at h
  obtain ⟨c1, ⟨_, rfl⟩, c2, hsw, _, ⟨_, rfl⟩, rfl⟩ := h
  obtain ⟨h1, h2, h3, h4, h5⟩ := trap_switch_frame _ _ _ hsw
  have h7 := h5 7 (by norm_num)
  simp only [if_true] at h7
  refine ⟨h7, h7, h2, h3, h4, ?_⟩
  intro i hi0 hi7
  have := h5 i hi0
  simp only [hi7, if_false] at this
  exact this


/-! ## The program counter through the handlers -/

theorem toWord_range (x : Int) : -32768 ≤ toWord x ∧ toWord x ≤ 32767 := by
  unfold toWord; omega

theorem toWord_of_word (x : Int) (h0 : -32768 ≤ x) (h1 : x ≤ 32767) : toWord x = x := by
  unfold toWord; omega

theorem adjust_9_range (w : Int) : -256 ≤ adjust (w % 512) 9 ∧ adjust (w % 512) 9 ≤ 255 := by
  rw [adjust_9]; split_ifs <;> omega

theorem adjust_11_range (w : Int) :
    -1024 ≤ adjust (w % 2048) 11 ∧ adjust (w % 2048) 11 ≤ 1023 := by
  rw [adjust_11]; split_ifs <;> omega

theorem add_instr_pc (t t' : CPU) (h : add_instr t = some t') : t'.pc = t.pc := by
  have hm : t.ir / 32 % 2 = 0 ∨ t.ir / 32 % 2 = 1 := by omega
  rcases hm with hm | hm
  · rw [add_instr_reg_eq t hm] at h; rw [← Option.some.inj h]; simp
  · rw [add_instr_imm_eq t hm] at h; rw [← Option.some.inj h]; simp

theorem and_instr_pc (t t' : CPU) (h : and_instr t = some t') : t'.pc = t.pc := by
  have hm : t.ir / 32 % 2 = 0 ∨ t.ir / 32 % 2 = 1 := by omega
  rcases hm with hm | hm
  · rw [and_instr_reg_eq t hm] at h; rw [← Option.some.inj h]; simp
  · rw [and_instr_imm_eq t hm] at h; rw [← Option.some.inj h]; simp

theorem not_instr_pc (t t' : CPU) (h : not_instr t = some t') : t'.pc = t.pc := by
  rw [not_instr_eq] at h; rw [← Option.some.inj h]; simp

theorem lea_instr_pc (t t' : CPU) (h : lea_instr t = some t') : t'.pc = t.pc := by
  rw [lea_instr_eq] at h; rw [← Option.some.inj h]; simp

theorem load_instr_pc (t t' : CPU) (h : load_instr t = some t') : t'.pc = t.pc := by
  rw [load_instr_eq] at h
  split_ifs at h
  rw [← Option.some.inj h]; simp

theorem store_instr_pc (t t' : CPU) (h : store_instr t = some t') : t'.pc = t.pc := by
  rw [store_instr_eq] at h
  split_ifs at h
  rw [← Option.some.inj h]; simp

theorem ldr_instr_pc (t t' : CPU) (h : ldr_instr t = some t') : t'.pc = t.pc := by
  rw [ldr_instr_eq] at h
  split_ifs at h
  rw [← Option.some.inj h]; simp

theorem str_instr_pc (t t' : CPU) (h : str_instr t = some t') : t'.pc = t.pc := by
  rw [str_instr_eq] at h
  split_ifs at h
  rw [← Option.some.inj h]; simp

theorem branch_instr_pc (t t' : CPU) (h : branch_instr t = some t') :
    t.pc - 256 ≤ t'.pc ∧ t'.pc ≤ t.pc + 255 := by
  rw [branch_instr_eq] at h
  rw [← Option.some.inj h]
  have := adjust_9_range t.ir
  split_ifs <;> first | omega | (simp only [generateCondition_pc]; omega)

theorem jump_subr_instr_pc (t t' : CPU) (h : jump_subr_instr t = some t') :
    (t.pc - 1024 ≤ t'.pc ∧ t'.pc ≤ t.pc + 1023) ∨ t'.pc = t.reg 0 := by
  have hm : t.ir / 2048 % 2 = 0 ∨ t.ir / 2048 % 2 = 1 := by omega
  rcases hm with hm | hm
  · rw [jump_subr_instr_jsrr_eq t hm] at h
    split_ifs at h
    rw [← Option.some.inj h]
    exact Or.inr rfl
  · rw [jump_subr_instr_jsr_eq t hm] at h
    rw [← Option.some.inj h]
    have := adjust_11_range t.ir
    left
    constructor <;> (simp; omega)

theorem jump_instr_pc (t t' : CPU) (h : jump_instr t = some t') : t'.pc = toWord t.pc := by
  rw [jump_instr_eq] at h; rw [← Option.some.inj h]

/-- The program counter after `dispatch`, handler by handler. -/
theorem dispatch_pc (t t' : CPU) (h : dispatch t = some t') :
    (t.opcode ≠ 0 → t.opcode ≠ 4 → t.opcode ≠ 12 → t.opcode ≠ 15 → t'.pc = t.pc) ∧
    ((t.pc - 1024 ≤ t'.pc ∧ t'.pc ≤ t.pc + 1023) ∨ t'.pc = t.reg 0 ∨ t'.pc = toWord t.pc) := by
  have same : t'.pc = t.pc →
      (t.opcode ≠ 0 → t.opcode ≠ 4 → t.opcode ≠ 12 → t.opcode ≠ 15 → t'.pc = t.pc) ∧
      ((t.pc - 1024 ≤ t'.pc ∧ t'.pc ≤ t.pc + 1023) ∨ t'.pc = t.reg 0 ∨
        t'.pc = toWord t.pc) := by
    intro e
    exact ⟨fun _ _ _ _ => e, Or.inl ⟨by omega, by omega⟩⟩
  by_cases hr : 0 ≤ t.opcode ∧ t.opcode ≤ 15
  · have hc : t.opcode = 0 ∨ t.opcode = 1 ∨ t.opcode = 2 ∨ t.opcode = 3 ∨ t.opcode = 4 ∨
        t.opcode = 5 ∨ t.opcode = 6 ∨ t.opcode = 7 ∨ t.opcode = 8 ∨ t.opcode = 9 ∨
        t.opcode = 10 ∨ t.opcode = 11 ∨ t.opcode = 12 ∨ t.opcode = 13 ∨ t.opcode = 14 ∨
        t.opcode = 15 := by omega
    rcases hc with c | c | c | c | c | c | c | c | c | c | c | c | c | c | c | c
    · rw [dispatch_0 t c] at h
      have := branch_instr_pc t t' h
      exact ⟨fun x => absurd c x, Or.inl ⟨by omega, by omega⟩⟩
    · rw [dispatch_1 t c] at h; exact same (add_instr_pc t t' h)
    · rw [dispatch_2 t c] at h; exact same (load_instr_pc t t' h)
    · rw [dispatch_3 t c] at h; exact same (store_instr_pc t t' h)
    · rw [dispatch_4 t c] at h
      refine ⟨fun _ x => absurd c x, ?_⟩
      rcases jump_subr_instr_pc t t' h with hj | hj
      · exact Or.inl hj
      · exact Or.inr (Or.inl hj)
    · rw [dispatch_5 t c] at h; exact same (and_instr_pc t t' h)
    · rw [dispatch_6 t c] at h; exact same (ldr_instr_pc t t' h)
    · rw [dispatch_7 t c] at h; exact same (str_instr_pc t t' h)
    · rw [dispatch_8 t c] at h; exact same (by rw [← Option.some.inj h]; rfl)
    · rw [dispatch_9 t c] at h; exact same (not_instr_pc t t' h)
    · rw [dispatch_10 t c] at h; exact same (ldi_instr_pc t t' h)
    · rw [dispatch_11 t c] at h; exact same (sti_instr_pc t t' h)
    · rw [dispatch_12 t c] at h
      exact ⟨fun _ _ x => absurd c x, Or.inr (Or.inr (jump_instr_pc t t' h))⟩
    · rw [dispatch_13 t c] at h; exact same (by rw [← Option.some.inj h]; rfl)
    · rw [dispatch_14 t c] at h; exact same (lea_instr_pc t t' h)
    · rw [dispatch_15 t c] at h
      exact ⟨fun _ _ _ x => absurd c x, Or.inr (Or.inr (trap_instr_some t t' h).1)⟩
  · rw [dispatch_other t hr] at h; exact same (by rw [← Option.some.inj h])

/-- C4, counterexample: a running state with `pc = 0xFFFF` (inside `0 .. 65535`) whose
cycle fetches an ADD word ends with `pc = 65536`, neither inside `0 .. 65535` nor
wrapped to 0. -/
theorem pc_leaves_address_range :
    last_cell_example.running = 1 ∧ last_cell_example.pc = 65535 ∧
      (one_instruction_cycle last_cell_example).map CPU.pc = some 65536 := by
  decide

/-! ## Array indices during one cycle -/

theorem isSome_ite_some {α : Type} (c : Prop) [Decidable c] (x : α) :
    (if c then some x else none).isSome = true ↔ c := by
  split_ifs with h <;> simp [h]

/-- C5: one cycle can index `reg` outside `0 .. 7` and `mem` outside `0 .. 65535`, where
the LC-3 has only three-bit register fields and 16-bit addresses.
* LDR R0, R1, #0 (`0x6040`) at `pc = 0` with `R1 = 0xFFFF`, held as -1 in the signed
  `Word`: the handler adds base and offset in `int`, reduces nothing to an LC-3 address
  and indexes `mem[reg[1] + 0] = mem[-1]`, outside `Word mem[MEMLEN]`.
* JSRR R2 (`0x4080`) at `pc = 0x3000`: the handler takes `base = ir & 0x1c0 = 128`
  without the shift by 6 and indexes `reg[128]`, outside `Word reg[NREG]`.
In both states the cycle has no defined result. -/
theorem cycle_indexes_out_of_bounds :
    (ldr_high_base_example.running = 1 ∧ ldr_high_base_example.pc = 0 ∧
      ldr_high_base_example.mem 0 = 0x6040 ∧ ldr_high_base_example.reg 1 = -1 ∧
      ldr_high_base_example.readMem (ldr_high_base_example.reg 1 + 0) = none ∧
      (one_instruction_cycle ldr_high_base_example).isSome = false) ∧
    ((one_word_example 0x4080 2 0 0x4000).running = 1 ∧
      (one_word_example 0x4080 2 0 0x4000).mem 0x3000 = 0x4080 ∧
      band (0x4080 : Int) 0x1c0 = 128 ∧
      (one_word_example 0x4080 2 0 0x4000).readReg 128 = none ∧
      (one_instruction_cycle (one_word_example 0x4080 2 0 0x4000)).isSome = false) := by
  decide

/-- Completion of a cycle, by opcode, for a running state with `0 ≤ pc ≤ 65535` and
fetched word `w`: the handlers of BR, ADD, AND, NOT, LEA, JMP, JSR (opcode 4 with bit 11
set), RTI and the reserved opcode index `mem` only at `pc` and registers only through
three-bit fields; LD and ST index `mem[pc + 1 + sign_extend(w[8:0])]`, LDR and STR index
`mem[reg[w[8:6]] + sign_extend(w[5:0])]`, and the cycle has a result exactly when that
index lies in `0 .. 65535`. -/
theorem cycle_completes (s : CPU) (hrun : s.running ≠ 0) (h0 : 0 ≤ s.pc) (h1 : s.pc ≤ 65535)
    (w : Int) (hw : w = s.mem s.pc) :
    ((w / 4096 % 16 = 0 ∨ w / 4096 % 16 = 1 ∨ w / 4096 % 16 = 5 ∨ w / 4096 % 16 = 9 ∨
        w / 4096 % 16 = 14 ∨ w / 4096 % 16 = 12 ∨ w / 4096 % 16 = 8 ∨ w / 4096 % 16 = 13 ∨
        (w / 4096 % 16 = 4 ∧ w / 2048 % 2 = 1)) →
      (one_instruction_cycle s).isSome = true) ∧
    ((w / 4096 % 16 = 2 ∨ w / 4096 % 16 = 3) →
      ((one_instruction_cycle s).isSome = true ↔
        0 ≤ s.pc + 1 + (if w % 512 < 256 then w % 512 else w % 512 - 512) ∧
        s.pc + 1 + (if w % 512 < 256 then w % 512 else w % 512 - 512) ≤ 65535)) ∧
    ((w / 4096 % 16 = 6 ∨ w / 4096 % 16 = 7) →
      ((one_instruction_cycle s).isSome = true ↔
        0 ≤ s.reg (w / 64 % 8) + (if w % 64 < 32 then w % 64 else w % 64 - 64) ∧
        s.reg (w / 64 % 8) + (if w % 64 < 32 then w % 64 else w % 64 - 64) ≤ 65535)) := by
  subst hw
  have hf := fetch_eq s hrun h0 (by unfold MEMLEN; omega)
  have hlt : ∀ x : Int, x < MEMLEN ↔ x ≤ 65535 := by intro x; unfold MEMLEN; omega
  refine ⟨?_, ?_, ?_⟩
  · intro hc
    rw [hf]
    rcases hc with c | c | c | c | c | c | c | c | ⟨c, hm⟩
    · rw [dispatch_0 _ c, branch_instr_eq]; rfl
    · rw [dispatch_1 _ c]
      have hm : s.mem s.pc / 32 % 2 = 0 ∨ s.mem s.pc / 32 % 2 = 1 := by omega
      rcases hm with hm | hm
      · rw [add_instr_reg_eq _ hm]; rfl
      · rw [add_instr_imm_eq _ hm]; rfl
    · rw [dispatch_5 _ c]
      have hm : s.mem s.pc / 32 % 2 = 0 ∨ s.mem s.pc / 32 % 2 = 1 := by omega
      rcases hm with hm | hm
      · rw [and_instr_reg_eq _ hm]; rfl
      · rw [and_instr_imm_eq _ hm]; rfl
    · rw [dispatch_9 _ c, not_instr_eq]; rfl
    · rw [dispatch_14 _ c, lea_instr_eq]; rfl
    · rw [dispatch_12 _ c, jump_instr_eq]; rfl
    · rw [dispatch_8 _ c]; rfl
    · rw [dispatch_13 _ c]; rfl
    · rw [dispatch_4 _ c, jump_subr_instr_jsr_eq _ hm]; rfl
  · intro hc
    rw [hf]
    rcases hc with c | c
    · rw [dispatch_2 _ c, load_instr_eq, isSome_ite_some, adjust_9, hlt]
    · rw [dispatch_3 _ c, store_instr_eq, isSome_ite_some, adjust_9, hlt]
  · intro hc
    rw [hf]
    rcases hc with c | c
    · rw [dispatch_6 _ c, ldr_instr_eq, isSome_ite_some, adjust_6, hlt]
    · rw [dispatch_7 _ c, str_instr_eq, isSome_ite_some, adjust_6, hlt]

/-! ## The program counter after one cycle -/

/-- C4 (as amended): nothing wraps the program counter modulo 65536.  For a running state
with `0 ≤ pc ≤ 65535` and fetched word `w`, the cycle completes
* with `pc = old pc + 1` when the opcode of `w` is ADD, AND, NOT, LEA, RTI or the
  reserved opcode, so a fetch at `pc = 0xFFFF` leaves `pc = 65536`;
* with `pc = old pc + 1` when `w` is an LD or ST whose address
  `old pc + 1 + sign_extend(w[8:0])` is in `0 .. 65535`, or an LDR or STR whose address
  `reg[w[8:6]] + sign_extend(w[5:0])` is in `0 .. 65535`;
* with `pc` either `old pc + 1` or `old pc + 1 + sign_extend(w[8:0])`, the sum not
  reduced, when `w` is a BR;
* with `pc = old pc + 1 + sign_extend(w[10:0])`, the sum not reduced, when `w` is a JSR
  (opcode 4 with bit 11 set).
Nothing is stated about LDI, STI, JMP, JSRR and TRAP. -/
theorem pc_after_cycle (s : CPU) (hrun : s.running ≠ 0) (h0 : 0 ≤ s.pc) (h1 : s.pc ≤ 65535)
    (w : Int) (hw : w = s.mem s.pc) :
    ((w / 4096 % 16 = 1 ∨ w / 4096 % 16 = 5 ∨ w / 4096 % 16 = 9 ∨ w / 4096 % 16 = 14 ∨
        w / 4096 % 16 = 8 ∨ w / 4096 % 16 = 13) →
      ∃ s', one_instruction_cycle s = some s' ∧ s'.pc = s.pc + 1) ∧
    ((w / 4096 % 16 = 2 ∨ w / 4096 % 16 = 3) →
      0 ≤ s.pc + 1 + (if w % 512 < 256 then w % 512 else w % 512 - 512) →
      s.pc + 1 + (if w % 512 < 256 then w % 512 else w % 512 - 512) ≤ 65535 →
      ∃ s', one_instruction_cycle s = some s' ∧ s'.pc = s.pc + 1) ∧
    ((w / 4096 % 16 = 6 ∨ w / 4096 % 16 = 7) →
      0 ≤ s.reg (w / 64 % 8) + (if w % 64 < 32 then w % 64 else w % 64 - 64) →
      s.reg (w / 64 % 8) + (if w % 64 < 32 then w % 64 else w % 64 - 64) ≤ 65535 →
      ∃ s', one_instruction_cycle s = some s' ∧ s'.pc = s.pc + 1) ∧
    (w / 4096 % 16 = 0 →
      ∃ s', one_instruction_cycle s = some s' ∧
        (s'.pc = s.pc + 1 ∨
          s'.pc = s.pc + 1 + (if w % 512 < 256 then w % 512 else w % 512 - 512))) ∧
    (w / 4096 % 16 = 4 → w / 2048 % 2 = 1 →
      ∃ s', one_instruction_cycle s = some s' ∧
        s'.pc = s.pc + 1 + (if w % 2048 < 1024 then w % 2048 else w % 2048 - 2048)) := by
  subst hw
  have hf := fetch_eq s hrun h0 (by unfold MEMLEN; omega)
  have hsame : (one_instruction_cycle s).isSome = true →
      s.mem s.pc / 4096 % 16 ≠ 0 → s.mem s.pc / 4096 % 16 ≠ 4 →
      s.mem s.pc / 4096 % 16 ≠ 12 → s.mem s.pc / 4096 % 16 ≠ 15 →
      ∃ s', one_instruction_cycle s = some s' ∧ s'.pc = s.pc + 1 := by
    intro hs
    obtain ⟨s', hs'⟩ := Option.isSome_iff_exists.mp hs
    have hstep := hs'
    rw [hf] at hstep
    have hA := (dispatch_pc _ _ hstep).1
    simp only [] at hA
    exact fun a b c d => ⟨s', hs', hA a b c d⟩
  have hc := cycle_completes s hrun h0 h1 _ rfl
  refine ⟨?_, ?_, ?_, ?_, ?_⟩
  · intro hop
    exact hsame (hc.1 (by omega)) (by omega) (by omega) (by omega) (by omega)
  · intro hop ha0 ha1
    exact hsame ((hc.2.1 hop).mpr ⟨ha0, ha1⟩) (by omega) (by omega) (by omega) (by omega)
  · intro hop ha0 ha1
    exact hsame ((hc.2.2 hop).mpr ⟨ha0, ha1⟩) (by omega) (by omega) (by omega) (by omega)
  · intro hop
    rw [hf, dispatch_0 _ hop, branch_instr_eq]
    refine ⟨_, rfl, ?_⟩
    simp only [adjust_9]
    split_ifs <;> simp
  · intro hop hm
    rw [hf, dispatch_4 _ hop, jump_subr_instr_jsr_eq _ hm]
    refine ⟨_, rfl, ?_⟩
    simp only [adjust_11]

theorem pc_after_cycle_witness :
    last_cell_example.running ≠ 0 ∧
      (0 ≤ last_cell_example.pc ∧ last_cell_example.pc ≤ 65535) ∧
      (one_instruction_cycle last_cell_example).map CPU.pc = some 65536 := by
  obtain ⟨s1, e1, p1⟩ :=
    (pc_after_cycle last_cell_example (by decide) (by decide) (by decide)
      (last_cell_example.mem last_cell_example.pc) rfl).1 (Or.inl (by decide))
  refine ⟨by decide, ⟨by decide, by decide⟩, ?_⟩
  rw [e1, Option.map_some', p1]
  decide


/-! ## BR -/

/-- C6: a running state with `cc ∈ {1, 2, 4}` whose word at `pc` is a BR with mask `m`
and 9-bit offset field `k`.  After one cycle `pc` is `old pc + 1 + sign_extend(k)` when
`cc & m ≠ 0` and `old pc + 1` otherwise; registers, memory and `cc` are unchanged.  (The
target need not lie in `0 .. 65535` for this to hold.) -/
theorem branch_cycle (s : CPU) (hrun : s.running ≠ 0) (h0 : 0 ≤ s.pc) (h1 : s.pc ≤ 65535)
    (hcc : s.cc = 1 ∨ s.cc = 2 ∨ s.cc = 4)
    (m k : Int) (hm0 : 0 ≤ m) (hm1 : m ≤ 7) (hk0 : 0 ≤ k) (hk1 : k ≤ 511)
    (hw : s.mem s.pc = 512 * m + k) :
    ∃ s', one_instruction_cycle s = some s' ∧
      s'.pc = (if Int.land s.cc m ≠ 0 then s.pc + 1 + (if k < 256 then k else k - 512)
               else s.pc + 1) ∧
      s'.reg = s.reg ∧ s'.mem = s.mem ∧ s'.cc = s.cc := by
  have hop : s.mem s.pc / 4096 % 16 = 0 := by rw [hw]; omega
  have hfm : s.mem s.pc / 512 % 8 = m := by rw [hw]; omega
  have hfk : s.mem s.pc % 512 = k := by rw [hw]; omega
  have hland : band s.cc m = Int.land s.cc m :=
    (band_eq_land s.cc m (by omega) (by omega) (by omega) (by omega)).1
  rw [fetch_eq s hrun h0 (by unfold MEMLEN; omega), dispatch_0 _ hop, branch_instr_eq]
  refine ⟨_, rfl, ?_, ?_, ?_, ?_⟩
  · simp only [hfm, hfk, hland]
    rw [← hfk, adjust_9, hfk]
    by_cases hz : s.mem s.pc = 0
    · have hm : m = 0 := by omega
      have hl0 : Int.land s.cc m = 0 := by rw [← hland, hm]; exact band_zero _
      simp [hz, hl0]
    · by_cases hl : Int.land s.cc m = 0
      · simp [hz, hl]
      · simp [hz, hl]
  · split_ifs <;> simp
  · split_ifs <;> simp
  · split_ifs <;> simp

theorem branch_cycle_witness :
    (one_instruction_cycle (one_word_example 0x0403 2 0 0)).map CPU.pc = some 0x3004 ∧
    (one_instruction_cycle (one_word_example 0x0A03 2 0 0)).map CPU.pc = some 0x3001 := by
  obtain ⟨s1, e1, p1, -⟩ := branch_cycle (one_word_example 0x0403 2 0 0) (by decide)
    (by decide) (by decide) (by decide) 2 3 (by decide) (by decide) (by decide) (by decide)
    (by decide)
  obtain ⟨s2, e2, p2, -⟩ := branch_cycle (one_word_example 0x0A03 2 0 0) (by decide)
    (by decide) (by decide) (by decide) 5 3 (by decide) (by decide) (by decide) (by decide)
    (by decide)
  rw [e1, e2, Option.map_some', Option.map_some', p1, p2]
  constructor <;> decide

/-! ## ADD, register mode -/

/-- C7: a running state whose word at `pc` is an ADD in register mode (opcode 1, bit 5
clear; bits 4..3 are `x`, which the handler ignores) with any `dst`, `src1`, `src2` in
`0 .. 7`.  After one cycle `reg[dst]` is `reg[src1] + reg[src2]` wrapped modulo `2^16`
into `-32768 .. 32767`, and `cc` is 4, 2 or 1 as that value is negative, zero or
positive.  No case of the sum is an error. -/
theorem add_register_cycle (s : CPU) (hrun : s.running ≠ 0) (h0 : 0 ≤ s.pc)
    (h1 : s.pc ≤ 65535)
    (dst src1 src2 x : Int) (hd0 : 0 ≤ dst) (hd1 : dst ≤ 7) (ha0 : 0 ≤ src1) (ha1 : src1 ≤ 7)
    (hb0 : 0 ≤ src2) (hb1 : src2 ≤ 7) (hx0 : 0 ≤ x) (hx1 : x ≤ 3)
    (hw : s.mem s.pc = 4096 + 512 * dst + 64 * src1 + 8 * x + src2) :
    ∃ s', one_instruction_cycle s = some s' ∧
      s'.reg dst = (s.reg src1 + s.reg src2 + 32768) % 65536 - 32768 ∧
      s'.cc = (if (s.reg src1 + s.reg src2 + 32768) % 65536 - 32768 < 0 then 4
               else if (s.reg src1 + s.reg src2 + 32768) % 65536 - 32768 = 0 then 2
               else 1) := by
  have hop : s.mem s.pc / 4096 % 16 = 1 := by rw [hw]; omega
  have hmode : s.mem s.pc / 32 % 2 = 0 := by rw [hw]; omega
  have hfd : s.mem s.pc / 512 % 8 = dst := by rw [hw]; omega
  have hfa : s.mem s.pc / 64 % 8 = src1 := by rw [hw]; omega
  have hfb : s.mem s.pc % 8 = src2 := by rw [hw]; omega
  rw [fetch_eq s hrun h0 (by unfold MEMLEN; omega), dispatch_1 _ hop,
    add_instr_reg_eq _ hmode]
  refine ⟨_, rfl, ?_, ?_⟩
  · simp [hfd, hfa, hfb, toWord]
  · simp [hfd, hfa, hfb, toWord]

theorem add_register_cycle_witness :
    ((one_instruction_cycle (one_word_example 0x1042 2 5 3)).map fun c => (c.reg 0, c.cc))
      = some (8, 1) ∧
    ((one_instruction_cycle (one_word_example 0x1042 2 0x7FFF 1)).map
      fun c => (c.reg 0, c.cc)) = some (-32768, 4) ∧
    ((one_instruction_cycle (one_word_example 0x1042 2 0 (-1))).map
      fun c => (c.reg 0, c.cc)) = some (-1, 4) := by
  obtain ⟨s1, e1, r1, c1⟩ := add_register_cycle (one_word_example 0x1042 2 5 3) (by decide)
    (by decide) (by decide) 0 1 2 0 (by decide) (by decide) (by decide) (by decide)
    (by decide) (by decide) (by decide) (by decide) (by decide)
  obtain ⟨s2, e2, r2, c2⟩ := add_register_cycle (one_word_example 0x1042 2 0x7FFF 1)
    (by decide) (by decide) (by decide) 0 1 2 0 (by decide) (by decide) (by decide)
    (by decide) (by decide) (by decide) (by decide) (by decide) (by decide)
  obtain ⟨s3, e3, r3, c3⟩ := add_register_cycle (one_word_example 0x1042 2 0 (-1))
    (by decide) (by decide) (by decide) 0 1 2 0 (by decide) (by decide) (by decide)
    (by decide) (by decide) (by decide) (by decide) (by decide) (by decide)
  rw [e1, e2, e3, Option.map_some', Option.map_some', Option.map_some', r1, r2, r3, c1, c2,
    c3]
  refine ⟨?_, ?_, ?_⟩ <;> decide


/-! ## AND -/

theorem toWord_band (a b : Int) (ha0 : -32768 ≤ a) (ha1 : a ≤ 32767) (hb0 : -32768 ≤ b)
    (hb1 : b ≤ 32767) : toWord (band a b) = Int.land a b := by
  obtain ⟨h1, h2, h3⟩ := band_eq_land a b ha0 ha1 hb0 hb1
  rw [toWord_of_word _ h2 h3, h1]

/-- The value the register-mode AND leaves in `reg[dst]`, the second assignment reading
the registers after the first. -/
theorem and_twice_reg (a b : Int) (p q : Prop) [Decidable p] [Decidable q]
    (hpq : p → q → a = b)
    (ha0 : -32768 ≤ a) (ha1 : a ≤ 32767) (hb0 : -32768 ≤ b) (hb1 : b ≤ 32767) :
    toWord (band (if p then toWord (band b a) else a) (if q then toWord (band b a) else b))
      = Int.land a b := by
  obtain ⟨-, h2, h3⟩ := band_eq_land b a hb0 hb1 ha0 ha1
  rw [toWord_of_word _ h2 h3]
  by_cases hp : p <;> by_cases hq : q
  · have e := hpq hp hq
    subst e
    rw [if_pos hp, if_pos hq, band_self_twice]
    exact toWord_band a a ha0 ha1 ha0 ha1
  · rw [if_pos hp, if_neg hq, band_absorb_left]
    exact toWord_band a b ha0 ha1 hb0 hb1
  · rw [if_neg hp, if_pos hq, band_absorb_right]
    exact toWord_band a b ha0 ha1 hb0 hb1
  · rw [if_neg hp, if_neg hq]
    exact toWord_band a b ha0 ha1 hb0 hb1

theorem and_twice_imm (a i : Int) (p : Prop) [Decidable p]
    (ha0 : -32768 ≤ a) (ha1 : a ≤ 32767) (hi0 : -32768 ≤ i) (hi1 : i ≤ 32767) :
    toWord (band (if p then toWord (band a i) else a) i) = Int.land a i := by
  obtain ⟨-, h2, h3⟩ := band_eq_land a i ha0 ha1 hi0 hi1
  rw [toWord_of_word _ h2 h3]
  by_cases hp : p
  · rw [if_pos hp, band_absorb]
    exact toWord_band a i ha0 ha1 hi0 hi1
  · rw [if_neg hp]
    exact toWord_band a i ha0 ha1 hi0 hi1

theorem and_instr_reg_val (t : CPU) (h : t.ir / 32 % 2 = 0)
    (hreg : ∀ i, -32768 ≤ t.reg i ∧ t.reg i ≤ 32767) :
    ∃ t', and_instr t = some t' ∧
      t'.reg (t.ir / 512 % 8) = Int.land (t.reg (t.ir / 64 % 8)) (t.reg (t.ir % 8)) ∧
      t'.cc = (if Int.land (t.reg (t.ir / 64 % 8)) (t.reg (t.ir % 8)) < 0 then 4
               else if Int.land (t.reg (t.ir / 64 % 8)) (t.reg (t.ir % 8)) = 0 then 2
               else 1) := by
  have hval := and_twice_reg (t.reg (t.ir / 64 % 8)) (t.reg (t.ir % 8))
    (t.ir / 64 % 8 = t.ir / 512 % 8) (t.ir % 8 = t.ir / 512 % 8)
    (fun e1 e2 => by rw [e1, e2]) (hreg _).1 (hreg _).2 (hreg _).1 (hreg _).2
  rw [and_instr_reg_eq t h]
  refine ⟨_, rfl, ?_, ?_⟩
  · rw [generateCondition_reg, calculateCondition_reg]
    show (if t.ir / 512 % 8 = t.ir / 512 % 8 then _ else _) = _
    rw [if_pos rfl]
    exact hval
  · rw [generateCondition_cc, calculateCondition_cc, hval]

theorem and_instr_imm_val (t : CPU) (h : t.ir / 32 % 2 = 1)
    (hreg : ∀ i, -32768 ≤ t.reg i ∧ t.reg i ≤ 32767) :
    ∃ t', and_instr t = some t' ∧
      t'.reg (t.ir / 512 % 8) = Int.land (t.reg (t.ir / 64 % 8)) (adjust (t.ir % 32) 5) ∧
      t'.cc = (if Int.land (t.reg (t.ir / 64 % 8)) (adjust (t.ir % 32) 5) < 0 then 4
               else if Int.land (t.reg (t.ir / 64 % 8)) (adjust (t.ir % 32) 5) = 0 then 2
               else 1) := by
  have hi : -32768 ≤ adjust (t.ir % 32) 5 ∧ adjust (t.ir % 32) 5 ≤ 32767 := by
    rw [adjust_5]; split_ifs <;> omega
  have hval := and_twice_imm (t.reg (t.ir / 64 % 8)) (adjust (t.ir % 32) 5)
    (t.ir / 64 % 8 = t.ir / 512 % 8) (hreg _).1 (hreg _).2 hi.1 hi.2
  rw [and_instr_imm_eq t h]
  refine ⟨_, rfl, ?_, ?_⟩
  · rw [generateCondition_reg, calculateCondition_reg]
    show (if t.ir / 512 % 8 = t.ir / 512 % 8 then _ else _) = _
    rw [if_pos rfl]
    exact hval
  · rw [generateCondition_cc, calculateCondition_cc, hval]

/-- C8: a running state with 16-bit register contents whose word at `pc` is an AND
(opcode 5) with any `dst`, `src1` in `0 .. 7`.  In register mode (bit 5 clear, second
source `src2`, bits 4..3 ignored) one cycle leaves `reg[dst] = reg[src1] AND reg[src2]`;
in immediate mode (bit 5 set, field `imm`) it leaves
`reg[dst] = reg[src1] AND sign_extend(imm)`; the registers on the right are the old
ones, also when `dst` is one of the sources.  In both modes `cc` is 4, 2 or 1 as the
result is negative, zero or positive, so a zero result gives `cc = 2`. -/
theorem and_cycle (s : CPU) (hrun : s.running ≠ 0) (h0 : 0 ≤ s.pc) (h1 : s.pc ≤ 65535)
    (hreg : ∀ i, -32768 ≤ s.reg i ∧ s.reg i ≤ 32767)
    (dst src1 : Int) (hd0 : 0 ≤ dst) (hd1 : dst ≤ 7) (ha0 : 0 ≤ src1) (ha1 : src1 ≤ 7) :
    (∀ src2 x : Int, 0 ≤ src2 → src2 ≤ 7 → 0 ≤ x → x ≤ 3 →
      s.mem s.pc = 20480 + 512 * dst + 64 * src1 + 8 * x + src2 →
      ∃ s', one_instruction_cycle s = some s' ∧
        s'.reg dst = Int.land (s.reg src1) (s.reg src2) ∧
        s'.cc = (if Int.land (s.reg src1) (s.reg src2) < 0 then 4
                 else if Int.land (s.reg src1) (s.reg src2) = 0 then 2 else 1)) ∧
    (∀ imm : Int, 0 ≤ imm → imm ≤ 31 →
      s.mem s.pc = 20480 + 512 * dst + 64 * src1 + 32 + imm →
      ∃ s', one_instruction_cycle s = some s' ∧
        s'.reg dst = Int.land (s.reg src1) (if imm < 16 then imm else imm - 32) ∧
        s'.cc = (if Int.land (s.reg src1) (if imm < 16 then imm else imm - 32) < 0 then 4
                 else if Int.land (s.reg src1) (if imm < 16 then imm else imm - 32) = 0
                 then 2 else 1)) := by
  constructor
  · intro src2 x hb0 hb1 hx0 hx1 hw
    have hop : s.mem s.pc / 4096 % 16 = 5 := by rw [hw]; omega
    have hmode : s.mem s.pc / 32 % 2 = 0 := by rw [hw]; omega
    have hfd : s.mem s.pc / 512 % 8 = dst := by rw [hw]; omega
    have hfa : s.mem s.pc / 64 % 8 = src1 := by rw [hw]; omega
    have hfb : s.mem s.pc % 8 = src2 := by rw [hw]; omega
    obtain ⟨t', ht, hr, hc⟩ := and_instr_reg_val
      { s with ir := s.mem s.pc, pc := s.pc + 1, opcode := s.mem s.pc / 4096 % 16 }
      hmode hreg
    simp only [hfd, hfa, hfb] at hr hc
    refine ⟨t', ?_, hr, hc⟩
    rw [fetch_eq s hrun h0 (by unfold MEMLEN; omega), dispatch_5 _ hop]
    exact ht
  · intro imm hi0 hi1 hw
    have hop : s.mem s.pc / 4096 % 16 = 5 := by rw [hw]; omega
    have hmode : s.mem s.pc / 32 % 2 = 1 := by rw [hw]; omega
    have hfd : s.mem s.pc / 512 % 8 = dst := by rw [hw]; omega
    have hfa : s.mem s.pc / 64 % 8 = src1 := by rw [hw]; omega
    have hfi : s.mem s.pc % 32 = imm := by rw [hw]; omega
    have hadj : adjust (s.mem s.pc % 32) 5 = if imm < 16 then imm else imm - 32 := by
      rw [adjust_5, hfi]
    obtain ⟨t', ht, hr, hc⟩ := and_instr_imm_val
      { s with ir := s.mem s.pc, pc := s.pc + 1, opcode := s.mem s.pc / 4096 % 16 }
      hmode hreg
    simp only [hfd, hfa, hadj] at hr hc
    refine ⟨t', ?_, hr, hc⟩
    rw [fetch_eq s hrun h0 (by unfold MEMLEN; omega), dispatch_5 _ hop]
    exact ht


theorem one_word_example_reg (w cc a b : Int) (ha0 : -32768 ≤ a) (ha1 : a ≤ 32767)
    (hb0 : -32768 ≤ b) (hb1 : b ≤ 32767) (i : Int) :
    -32768 ≤ (one_word_example w cc a b).reg i ∧ (one_word_example w cc a b).reg i ≤ 32767 := by
  show -32768 ≤ (if i = 1 then a else if i = 2 then b else 0) ∧
    (if i = 1 then a else if i = 2 then b else 0) ≤ 32767
  split_ifs <;> omega

theorem and_cycle_witness :
    ((one_instruction_cycle (one_word_example 0x5242 2 240 255)).map
      fun c => (c.reg 1, c.cc)) = some (240, 1) ∧
    ((one_instruction_cycle (one_word_example 0x5260 1 240 0)).map
      fun c => (c.reg 1, c.cc)) = some (0, 2) := by
  obtain ⟨s1, e1, r1, c1⟩ := (and_cycle (one_word_example 0x5242 2 240 255) (by decide)
    (by decide) (by decide)
    (one_word_example_reg _ _ _ _ (by decide) (by decide) (by decide) (by decide))
    1 1 (by decide) (by decide) (by decide) (by decide)).1 2 0 (by decide) (by decide)
    (by decide) (by decide) (by decide)
  obtain ⟨s2, e2, r2, c2⟩ := (and_cycle (one_word_example 0x5260 1 240 0) (by decide)
    (by decide) (by decide)
    (one_word_example_reg _ _ _ _ (by decide) (by decide) (by decide) (by decide))
    1 1 (by decide) (by decide) (by decide) (by decide)).2 0 (by decide) (by decide)
    (by decide)
  rw [e1, e2, Option.map_some', Option.map_some', r1, r2, c1, c2]
  constructor <;> decide

/-! ## NOT -/

theorem lnot_eq (x : Int) : Int.lnot x = -1 - x := by
  cases x with
  | ofNat m => simp only [Int.lnot, Int.ofNat_eq_coe, Int.negSucc_eq]; omega
  | negSucc m => simp only [Int.lnot, Int.negSucc_eq]; omega

theorem toWord_bnot (a : Int) (h0 : -32768 ≤ a) (h1 : a ≤ 32767) :
    toWord (bnot a) = -1 - a := by
  unfold toWord bnot toInt32
  omega

/-- C9: a running state whose word at `pc` is a NOT (opcode 9; the low six bits `low`
are ignored by the handler) with `dst`, `src` in `0 .. 7`, `reg[src]` a 16-bit value.
After one cycle `reg[dst]` is the bitwise complement of the old `reg[src]`, which is
`-1 - reg[src]`; `cc` is 4, 2 or 1 as that value is negative, zero or positive; every
other register and all of memory are unchanged. -/
theorem not_cycle (s : CPU) (hrun : s.running ≠ 0) (h0 : 0 ≤ s.pc) (h1 : s.pc ≤ 65535)
    (dst src low : Int) (hd0 : 0 ≤ dst) (hd1 : dst ≤ 7) (ha0 : 0 ≤ src) (ha1 : src ≤ 7)
    (hl0 : 0 ≤ low) (hl1 : low ≤ 63)
    (hsrc : -32768 ≤ s.reg src ∧ s.reg src ≤ 32767)
    (hw : s.mem s.pc = toWord (36864 + 512 * dst + 64 * src + low)) :
    ∃ s', one_instruction_cycle s = some s' ∧
      s'.reg dst = Int.lnot (s.reg src) ∧ s'.reg dst = -1 - s.reg src ∧
      s'.cc = (if -1 - s.reg src < 0 then 4 else if -1 - s.reg src = 0 then 2 else 1) ∧
      (∀ i, i ≠ dst → s'.reg i = s.reg i) ∧ s'.mem = s.mem := by
  unfold toWord at hw
  have hop : s.mem s.pc / 4096 % 16 = 9 := by rw [hw]; omega
  have hfd : s.mem s.pc / 512 % 8 = dst := by rw [hw]; omega
  have hfa : s.mem s.pc / 64 % 8 = src := by rw [hw]; omega
  have hval := toWord_bnot (s.reg src) hsrc.1 hsrc.2
  rw [fetch_eq s hrun h0 (by unfold MEMLEN; omega), dispatch_9 _ hop, not_instr_eq]
  refine ⟨_, rfl, ?_, ?_, ?_, ?_, ?_⟩
  · simp [hfd, hfa, hval, lnot_eq]
  · simp [hfd, hfa, hval]
  · simp [hfd, hfa, hval]
  · intro i hi
    simp [hfd, hi]
  · simp

theorem not_cycle_witness :
    ((one_instruction_cycle (one_word_example (-28033) 2 0 0)).map
      fun c => (c.reg 1, c.cc)) = some (-1, 4) := by
  obtain ⟨s1, e1, -, r1, c1, -⟩ := not_cycle (one_word_example (-28033) 2 0 0) (by decide)
    (by decide) (by decide) 1 1 63 (by decide) (by decide) (by decide) (by decide)
    (by decide) (by decide) ⟨by decide, by decide⟩ (by decide)
  rw [e1, Option.map_some', r1, c1]
  decide


/-! ## LD -/

/-- C10: LD (opcode 2) with destination `dst` in `0 .. 7` and 9-bit offset field `k`.
* For a running state whose word at `pc` is that LD, with
  `a = old pc + 1 + sign_extend(k)` in `0 .. 65535` and `mem[a]` a 16-bit value: after
  one cycle `reg[dst] = mem[a]`, `cc` is 4, 2 or 1 as that value is negative, zero or
  positive, memory and every other register are unchanged, and `pc = old pc + 1`.
* Immediately after `load(origin, words)` whose first word is that LD, with `a` inside
  the loaded range: the cycle leaves in `reg[dst]` exactly the word the loader stored at
  `a`, which is `words[a - origin]` converted to a 16-bit word. -/
theorem load_cycle (dst k : Int) (hd0 : 0 ≤ dst) (hd1 : dst ≤ 7) (hk0 : 0 ≤ k)
    (hk1 : k ≤ 511) :
    (∀ (s : CPU) (a : Int), s.running ≠ 0 → 0 ≤ s.pc → s.pc ≤ 65535 →
      s.mem s.pc = 8192 + 512 * dst + k →
      a = s.pc + 1 + (if k < 256 then k else k - 512) → 0 ≤ a → a ≤ 65535 →
      -32768 ≤ s.mem a → s.mem a ≤ 32767 →
      ∃ s', one_instruction_cycle s = some s' ∧ s'.reg dst = s.mem a ∧
        s'.cc = (if s.mem a < 0 then 4 else if s.mem a = 0 then 2 else 1) ∧
        s'.mem = s.mem ∧ (∀ i, i ≠ dst → s'.reg i = s.reg i) ∧ s'.pc = s.pc + 1) ∧
    (∀ (prior : CPU) (o : Int) (ws : List Int) (a : Int), 0 ≤ o →
      o + ws.length ≤ 65536 → ws.head? = some (8192 + 512 * dst + k) →
      a = o + 1 + (if k < 256 then k else k - 512) → o ≤ a → a < o + ws.length →
      ∃ s0 s', load o ws prior = some s0 ∧ one_instruction_cycle s0 = some s' ∧
        s'.reg dst = s0.mem a ∧
        s0.mem a = (ws.getD (a - o).toNat 0 + 32768) % 65536 - 32768) := by
  have part1 : ∀ (s : CPU) (a : Int), s.running ≠ 0 → 0 ≤ s.pc → s.pc ≤ 65535 →
      s.mem s.pc = 8192 + 512 * dst + k →
      a = s.pc + 1 + (if k < 256 then k else k - 512) → 0 ≤ a → a ≤ 65535 →
      -32768 ≤ s.mem a → s.mem a ≤ 32767 →
      ∃ s', one_instruction_cycle s = some s' ∧ s'.reg dst = s.mem a ∧
        s'.cc = (if s.mem a < 0 then 4 else if s.mem a = 0 then 2 else 1) ∧
        s'.mem = s.mem ∧ (∀ i, i ≠ dst → s'.reg i = s.reg i) ∧ s'.pc = s.pc + 1 := by
    intro s a hrun h0 h1 hw ha ha0 ha1 hm0 hm1
    have hop : s.mem s.pc / 4096 % 16 = 2 := by rw [hw]; omega
    have hfd : s.mem s.pc / 512 % 8 = dst := by rw [hw]; omega
    have hfk : s.mem s.pc % 512 = k := by rw [hw]; omega
    have hadj : adjust (s.mem s.pc % 512) 9 = if k < 256 then k else k - 512 := by
      rw [adjust_9, hfk]
    have haddr : s.pc + 1 + adjust (s.mem s.pc % 512) 9 = a := by rw [hadj, ha]
    have hval : toWord (s.mem a) = s.mem a := toWord_of_word _ hm0 hm1
    rw [fetch_eq s hrun h0 (by unfold MEMLEN; omega), dispatch_2 _ hop, load_instr_eq]
    simp only [haddr]
    rw [if_pos ⟨ha0, by unfold MEMLEN; omega⟩]
    refine ⟨_, rfl, ?_, ?_, ?_, ?_, ?_⟩
    · simp [hfd, hval]
    · simp [hval]
    · simp
    · intro i hi
      simp [hfd, hi]
    · simp
  refine ⟨part1, ?_⟩
  intro prior o ws a ho0 ho1 hhead ha hao ha1
  obtain ⟨s0, hl, hpc, -, hrun, -, -, -, hmem, -, -⟩ :=
    load_state prior o ws ho0 (by unfold MEMLEN; omega)
  have hlen : 0 < ws.length := by
    cases ws with
    | nil => simp at hhead
    | cons v rest => simp
  have hfirst : ws.getD 0 0 = 8192 + 512 * dst + k := by
    cases ws with
    | nil => simp at hhead
    | cons v rest =>
      simp only [List.head?_cons, Option.some.injEq] at hhead
      simp [hhead]
  have hw : s0.mem s0.pc = 8192 + 512 * dst + k := by
    rw [hpc, hmem o (le_refl o) (by omega)]
    simp only [sub_self, Int.toNat_zero, hfirst]
    unfold toWord
    omega
  have hma : s0.mem a = toWord (ws.getD (a - o).toNat 0) := hmem a hao ha1
  have hr := toWord_range (ws.getD (a - o).toNat 0)
  obtain ⟨s', hstep, hreg, -⟩ := part1 s0 a (by rw [hrun]; norm_num) (by rw [hpc]; exact ho0)
    (by rw [hpc]; omega) hw (by rw [hpc]; exact ha) (by omega) (by omega)
    (by rw [hma]; exact hr.1) (by rw [hma]; exact hr.2)
  exact ⟨s0, s', hl, hstep, hreg, hma⟩


theorem load_cycle_witness :
    ((one_instruction_cycle (one_word_example 9215 2 0 0)).map
      fun c => (c.reg 1, c.cc, c.pc)) = some (9215, 1, 0x3001) ∧
    (((load 0x3000 [8193, 0, 4660] halted_example).bind one_instruction_cycle).map
      fun c => c.reg 0) = some 4660 := by
  obtain ⟨s1, e1, r1, c1, -, -, p1⟩ :=
    (load_cycle 1 511 (by decide) (by decide) (by decide) (by decide)).1
      (one_word_example 9215 2 0 0) 0x3000 (by decide) (by decide) (by decide) (by decide)
      (by decide) (by decide) (by decide) (by decide) (by decide)
  obtain ⟨s0, s2, hl, e2, r2, m2⟩ :=
    (load_cycle 0 1 (by decide) (by decide) (by decide) (by decide)).2
      halted_example 0x3000 [8193, 0, 4660] 0x3002 (by decide) (by decide) (by decide)
      (by decide) (by decide) (by decide)
  constructor
  · rw [e1, Option.map_some', r1, c1, p1]
    decide
  · rw [hl, Option.some_bind, e2, Option.map_some', r2, m2]
    decide


/-! ## ST -/

theorem store_instr_val (t : CPU) (a : Int) (ha : a = t.pc + adjust (t.ir % 512) 9)
    (h0 : 0 ≤ a) (h1 : a < MEMLEN) :
    ∃ t', store_instr t = some t' ∧ t'.mem a = toWord (t.reg (t.ir / 512 % 8)) ∧
      (∀ x, x ≠ a → t'.mem x = t.mem x) ∧ t'.reg = t.reg ∧ t'.pc = t.pc ∧
      t'.cc = (if t.reg (t.ir / 512 % 8) < 0 then 4
               else if t.reg (t.ir / 512 % 8) = 0 then 2 else 1) ∧
      t'.running = t.running := by
  subst ha
  rw [store_instr_eq, if_pos ⟨h0, h1⟩]
  refine ⟨_, rfl, ?_, ?_, ?_, ?_, ?_, ?_⟩
  · rw [generateCondition_mem, calculateCondition_mem]
    show (if _ = _ then _ else _) = _
    rw [if_pos rfl]
  · intro x hx
    rw [generateCondition_mem, calculateCondition_mem]
    show (if x = _ then _ else _) = _
    rw [if_neg hx]
  · rw [generateCondition_reg, calculateCondition_reg]
  · rw [generateCondition_pc, calculateCondition_pc]
  · rw [generateCondition_cc, calculateCondition_cc]
  · rw [generateCondition_running, calculateCondition_running]

/-- C11: a running state whose word at `pc` is an ST (opcode 3) with source register
`src` in `0 .. 7` (holding a 16-bit value) and 9-bit offset field `k`, such that
`a = old pc + 1 + sign_extend(k)` lies in `0 .. 65535`.  After one cycle
`mem[a] = old reg[src]`, every other memory cell is unchanged, all registers are
unchanged and `pc = old pc + 1`. -/
theorem store_cycle (s : CPU) (hrun : s.running ≠ 0) (h0 : 0 ≤ s.pc) (h1 : s.pc ≤ 65535)
    (src k a : Int) (hs0 : 0 ≤ src) (hs1 : src ≤ 7) (hk0 : 0 ≤ k) (hk1 : k ≤ 511)
    (hw : s.mem s.pc = 12288 + 512 * src + k)
    (ha : a = s.pc + 1 + (if k < 256 then k else k - 512)) (ha0 : 0 ≤ a) (ha1 : a ≤ 65535)
    (hsrc : -32768 ≤ s.reg src ∧ s.reg src ≤ 32767) :
    ∃ s', one_instruction_cycle s = some s' ∧ s'.mem a = s.reg src ∧
      (∀ x, x ≠ a → s'.mem x = s.mem x) ∧ (∀ i, s'.reg i = s.reg i) ∧
      s'.pc = s.pc + 1 := by
  have hop : s.mem s.pc / 4096 % 16 = 3 := by rw [hw]; omega
  have hfd : s.mem s.pc / 512 % 8 = src := by rw [hw]; omega
  have hfk : s.mem s.pc % 512 = k := by rw [hw]; omega
  have hadj : adjust (s.mem s.pc % 512) 9 = if k < 256 then k else k - 512 := by
    rw [adjust_9, hfk]
  obtain ⟨t', ht, hm, hfr, hr, hp, -, -⟩ := store_instr_val
    { s with ir := s.mem s.pc, pc := s.pc + 1, opcode := s.mem s.pc / 4096 % 16 } a
    (by rw [ha]; exact congrArg (fun z => s.pc + 1 + z) hadj.symm) ha0
    (by unfold MEMLEN; omega)
  simp only [hfd] at hm
  rw [toWord_of_word _ hsrc.1 hsrc.2] at hm
  refine ⟨t', ?_, hm, hfr, fun i => congrFun hr i, hp⟩
  rw [fetch_eq s hrun h0 (by unfold MEMLEN; omega), dispatch_3 _ hop]
  exact ht

theorem store_cycle_witness :
    ((one_instruction_cycle (one_word_example 0x3201 2 99 0)).map
      fun c => (c.mem 0x3002, c.mem 0x3000, c.reg 1, c.pc)) = some (99, 0x3201, 99, 0x3001) := by
  obtain ⟨s1, e1, m1, f1, r1, p1⟩ := store_cycle (one_word_example 0x3201 2 99 0) (by decide)
    (by decide) (by decide) 1 1 0x3002 (by decide) (by decide) (by decide) (by decide)
    (by decide) (by decide) (by decide) (by decide) ⟨by decide, by decide⟩
  rw [e1, Option.map_some', m1, f1 0x3000 (by decide), r1 1, p1]
  decide


/-! ## LDI, STI -/

/-- C12: the cycle on `0xA001`, LDI R0, #1, at `pc = 0x3000`.  The effective address is
`0x3002`, the word there is `0x5000` and `mem[0x5000] = 42`; the handler instead indexes
memory with the raw offset, `mem[mem[1]] = mem[2] = 7`, and leaves `reg[0] = 7`. -/
theorem ldi_indexes_with_raw_offset :
    (indirect_example (-24575) 0).mem 0x3000 = -24575 ∧
    (indirect_example (-24575) 0).mem ((indirect_example (-24575) 0).mem (0x3000 + 1 + 1)) = 42 ∧
    (indirect_example (-24575) 0).mem ((indirect_example (-24575) 0).mem 1) = 7 ∧
    (one_instruction_cycle (indirect_example (-24575) 0)).map (fun c => c.reg 0) = some 7 := by
  decide

/-- C13: the cycle on `0xB201`, STI R1, #1, at `pc = 0x3000` with `R1 = 99`.  The
effective address is `0x3002` and the word there is `0x5000`; the handler instead stores
through `mem[pc] = mem[0x3001] = 0x4000`: afterwards `mem[0x4000] = 99` and `mem[0x5000]`
still holds 42. -/
theorem sti_stores_through_next_word :
    (indirect_example (-19967) 99).mem 0x3000 = -19967 ∧
    (indirect_example (-19967) 99).mem (0x3000 + 1 + 1) = 0x5000 ∧
    (indirect_example (-19967) 99).mem 0x4000 = 0 ∧
    (one_instruction_cycle (indirect_example (-19967) 99)).map
      (fun c => (c.mem 0x5000, c.mem 0x4000)) = some (42, 99) := by
  decide

/-! ## JMP, JSR, JSRR -/

/-- C14: the cycle on `0xC080`, JMP R2, at `pc = 0x3000` with `R2 = 0x4000`.  The
handler first assigns `reg[2] = pc` and then reads `pc` back from it: afterwards
`pc = 0x3001` and `reg[2] = 0x3001`, not `pc = 0x4000` with `R2` intact. -/
theorem jmp_overwrites_base :
    (one_word_example (-16256) 2 0 0x4000).reg 2 = 0x4000 ∧
    (one_instruction_cycle (one_word_example (-16256) 2 0 0x4000)).map
      (fun c => (c.pc, c.reg 2)) = some (0x3001, 0x3001) := by
  decide

/-- C16: the cycle on `0x4040`, JSRR R1, at `pc = 0x3000` with `R1 = 0x4000`.  The
handler takes `base = ir & 0x1c0 = 64` without shifting and indexes `reg[64]`, outside
the eight registers, so the cycle has no result (`pc` does not become `0x4000`). -/
theorem jsrr_indexes_outside_registers :
    (one_word_example 0x4040 2 0x4000 0).reg 1 = 0x4000 ∧
    band (0x4040 : Int) 0x1c0 = 64 ∧
    (one_instruction_cycle (one_word_example 0x4040 2 0x4000 0)).isSome = false := by
  decide

/-- C15: a running state whose word at `pc` is a JSR (opcode 4 with bit 11 set) with
11-bit offset field `k`.  After one cycle `reg[7]` holds `old pc + 1` as a 16-bit word,
`pc = old pc + 1 + sign_extend(k)`, and registers R0..R6, memory and `cc` are unchanged.
(The target need not lie in `0 .. 65535` for this to hold.) -/
theorem jsr_cycle (s : CPU) (hrun : s.running ≠ 0) (h0 : 0 ≤ s.pc) (h1 : s.pc ≤ 65535)
    (k : Int) (hk0 : 0 ≤ k) (hk1 : k ≤ 2047) (hw : s.mem s.pc = 16384 + 2048 + k) :
    ∃ s', one_instruction_cycle s = some s' ∧
      s'.reg 7 = (s.pc + 1 + 32768) % 65536 - 32768 ∧
      s'.pc = s.pc + 1 + (if k < 1024 then k else k - 2048) ∧
      (∀ i, 0 ≤ i → i ≤ 6 → s'.reg i = s.reg i) ∧ s'.mem = s.mem ∧ s'.cc = s.cc := by
  have hop : s.mem s.pc / 4096 % 16 = 4 := by rw [hw]; omega
  have hmode : s.mem s.pc / 2048 % 2 = 1 := by rw [hw]; omega
  have hfk : s.mem s.pc % 2048 = k := by rw [hw]; omega
  have hadj : adjust (s.mem s.pc % 2048) 11 = if k < 1024 then k else k - 2048 := by
    rw [adjust_11, hfk]
  rw [fetch_eq s hrun h0 (by unfold MEMLEN; omega), dispatch_4 _ hop,
    jump_subr_instr_jsr_eq _ hmode]
  refine ⟨_, rfl, ?_, ?_, ?_, rfl, rfl⟩
  · show (if (7 : Int) = 7 then toWord (s.pc + 1) else s.reg 7) = _
    rw [if_pos rfl]
    rfl
  · show s.pc + 1 + adjust (s.mem s.pc % 2048) 11 = _
    rw [hadj]
  · intro i _ hi
    show (if i = 7 then toWord (s.pc + 1) else s.reg i) = _
    rw [if_neg (by omega)]

theorem jsr_cycle_witness :
    ((one_instruction_cycle (one_word_example 0x4FFE 2 5 6)).map
      fun c => (c.reg 7, c.pc, c.reg 1, c.cc)) = some (0x3001, 0x2FFF, 5, 2) := by
  obtain ⟨s1, e1, r7, p1, f1, -, c1⟩ := jsr_cycle (one_word_example 0x4FFE 2 5 6) (by decide)
    (by decide) (by decide) 2046 (by decide) (by decide) (by decide)
  rw [e1, Option.map_some', r7, p1, f1 1 (by decide) (by decide), c1]
  decide


/-! ## TRAP -/

theorem trap_switch_plain (c : CPU) (code : Int) (h20 : code ≠ 0x20) (h22 : code ≠ 0x22)
    (h23 : code ≠ 0x23) :
    trap_switch c code =
      some (if code = 0x24 ∨ code = 0x25 then halt_processor c else c) := by
  unfold trap_switch
  rw [if_neg h20]
  by_cases h21 : code = 0x21
  · rw [if_pos h21, if_neg (by omega)]
  · rw [if_neg h21, if_neg h22, if_neg h23]
    by_cases h24 : code = 0x24
    · rw [if_pos h24, if_pos (Or.inl h24)]
    · rw [if_neg h24]
      by_cases h25 : code = 0x25
      · rw [if_pos h25, if_pos (Or.inr h25)]
      · rw [if_neg h25, if_neg (by omega)]

theorem trap_instr_eq (t : CPU) :
    trap_instr t =
      (trap_switch { t with reg := fun x => if x = 7 then toWord t.pc else t.reg x }
        (t.ir % 256)).bind fun c2 => some { c2 with pc := c2.reg 7 } := by
  unfold trap_instr
  have hw : t.writeReg 7 t.pc =
      some { t with reg := fun x => if x = 7 then toWord t.pc else t.reg x } := by
    unfold CPU.writeReg NREG
    rw [if_pos ⟨by norm_num, by norm_num⟩]
  rw [hw]
  simp only [Option.some_bind, field_7_0]
  congr 1

/-- TRAP with a vector other than GETC, PUTS and IN, in closed form. -/
theorem trap_instr_plain (t : CPU) (h20 : t.ir % 256 ≠ 0x20) (h22 : t.ir % 256 ≠ 0x22)
    (h23 : t.ir % 256 ≠ 0x23) :
    trap_instr t =
      some { t with
        reg := fun x => if x = 7 then toWord t.pc else t.reg x,
        pc := toWord t.pc,
        running := if t.ir % 256 = 0x24 ∨ t.ir % 256 = 0x25 then 0 else t.running } := by
  rw [trap_instr_eq, trap_switch_plain _ _ h20 h22 h23]
  by_cases hh : t.ir % 256 = 0x24 ∨ t.ir % 256 = 0x25
  · rw [if_pos hh, if_pos hh]
    simp only [Option.some_bind, halt_processor, if_true]
  · rw [if_neg hh, if_neg hh]
    simp only [Option.some_bind, if_true]

/-- The character input always completes, with or without a character to read. -/
theorem read_char_some (c : CPU) : (read_char c).isSome = true := by
  unfold read_char
  unfold CPU.readReg CPU.writeReg NREG
  rw [if_pos ⟨by norm_num, by norm_num⟩, Option.some_bind,
    if_pos ⟨by norm_num, by norm_num⟩, Option.some_bind]
  cases hs : c.stdin with
  | nil =>
    simp only [hs]
    rw [if_pos ⟨by norm_num, by norm_num⟩]
    rfl
  | cons x rest =>
    simp only [hs]
    rw [if_pos ⟨by norm_num, by norm_num⟩]
    rfl

theorem trap_instr_input (t : CPU) (hv : t.ir % 256 = 0x20 ∨ t.ir % 256 = 0x23) :
    (trap_instr t).isSome = true := by
  rw [trap_instr_eq]
  have hsw : trap_switch { t with reg := fun x => if x = 7 then toWord t.pc else t.reg x }
      (t.ir % 256) =
      read_char { t with reg := fun x => if x = 7 then toWord t.pc else t.reg x } := by
    unfold trap_switch
    rcases hv with hv | hv
    · rw [if_pos hv]
    · rw [if_neg (by omega), if_neg (by omega), if_neg (by omega), if_pos hv]
  rw [hsw]
  have hr := read_char_some
    { t with reg := fun x => if x = 7 then toWord t.pc else t.reg x }
  cases hc : read_char { t with reg := fun x => if x = 7 then toWord t.pc else t.reg x } with
  | none => rw [hc] at hr; exact absurd hr (by simp)
  | some c2 => rfl


/-- C17: a running state whose word at `pc` is a TRAP (opcode 15, bits 11..8 any `x`)
with vector `0x25`.  One cycle yields `running = 0`, with memory, `cc` and registers
R0..R6 unchanged. -/
theorem trap_halt_cycle (s : CPU) (hrun : s.running ≠ 0) (h0 : 0 ≤ s.pc) (h1 : s.pc ≤ 65535)
    (x : Int) (hx0 : 0 ≤ x) (hx1 : x ≤ 15)
    (hw : s.mem s.pc = toWord (61440 + 256 * x + 37)) :
    ∃ s', one_instruction_cycle s = some s' ∧ s'.running = 0 ∧ s'.mem = s.mem ∧
      s'.cc = s.cc ∧ ∀ i, 0 ≤ i → i ≤ 6 → s'.reg i = s.reg i := by
  unfold toWord at hw
  have hop : s.mem s.pc / 4096 % 16 = 15 := by rw [hw]; omega
  have hv : s.mem s.pc % 256 = 0x25 := by rw [hw]; omega
  have h20 : s.mem s.pc % 256 ≠ 0x20 := by omega
  have h22 : s.mem s.pc % 256 ≠ 0x22 := by omega
  have h23 : s.mem s.pc % 256 ≠ 0x23 := by omega
  rw [fetch_eq s hrun h0 (by unfold MEMLEN; omega), dispatch_15 _ hop,
    trap_instr_plain _ h20 h22 h23]
  refine ⟨_, rfl, ?_, rfl, rfl, ?_⟩
  · show (if s.mem s.pc % 256 = 0x24 ∨ s.mem s.pc % 256 = 0x25 then 0 else s.running) = 0
    rw [if_pos (Or.inr hv)]
  · intro i _ hi
    show (if i = 7 then toWord (s.pc + 1) else s.reg i) = _
    rw [if_neg (by omega)]

theorem trap_halt_cycle_witness :
    ((one_instruction_cycle (one_word_example (-4059) 1 5 6)).map
      fun c => (c.running, c.cc, c.reg 1, c.mem 0x3000)) = some (0, 1, 5, -4059) := by
  obtain ⟨s1, e1, r1, m1, c1, f1⟩ := trap_halt_cycle (one_word_example (-4059) 1 5 6)
    (by decide) (by decide) (by decide) 0 (by decide) (by decide) (by decide)
  rw [e1, Option.map_some', r1, m1, c1, f1 1 (by decide) (by decide)]
  decide

/-- C18: the cycle of a running state with `pc = 0x8000` (inside `0 .. 65534`) on
`0xF021`, TRAP x21.  `reg[7]` receives `0x8001` as a signed 16-bit word, `-32767`, and
`pc` is restored from it: afterwards `pc = -32767`, not `old pc + 1 = 0x8001`. -/
theorem trap_restores_signed_pc :
    high_trap_example.running = 1 ∧ high_trap_example.pc = 0x8000 ∧
      (one_instruction_cycle high_trap_example).map (fun c => (c.pc, c.reg 7))
        = some (-32767, -32767) := by
  decide

/-- TRAP in general: a running state with `pc` in `0 .. 65534` whose word at `pc` is a
TRAP with any vector `v` (bits 11..8 any `x`).  Whenever the cycle returns, `reg[7]`
holds `old pc + 1` as a signed 16-bit word and `pc` equals `reg[7]`; hence
`pc = old pc + 1` when `old pc + 1 ≤ 32767`.  The cycle returns for every vector other
than `0x22` (PUTS, which scans memory from `reg[0]`), with or without an input
character for `0x20` and `0x23`. -/
theorem trap_cycle (s : CPU) (hrun : s.running ≠ 0) (h0 : 0 ≤ s.pc) (h1 : s.pc ≤ 65534)
    (x v : Int) (hx0 : 0 ≤ x) (hx1 : x ≤ 15) (hv0 : 0 ≤ v) (hv1 : v ≤ 255)
    (hw : s.mem s.pc = toWord (61440 + 256 * x + v)) :
    (∀ s', one_instruction_cycle s = some s' →
      s'.reg 7 = (s.pc + 1 + 32768) % 65536 - 32768 ∧ s'.pc = s'.reg 7 ∧
      (s.pc + 1 ≤ 32767 → s'.pc = s.pc + 1)) ∧
    (v ≠ 0x20 → v ≠ 0x22 → v ≠ 0x23 → (one_instruction_cycle s).isSome = true) ∧
    ((v = 0x20 ∨ v = 0x23) → (one_instruction_cycle s).isSome = true) := by
  unfold toWord at hw
  have hop : s.mem s.pc / 4096 % 16 = 15 := by rw [hw]; omega
  have hv : s.mem s.pc % 256 = v := by rw [hw]; omega
  have hf := fetch_eq s hrun h0 (by unfold MEMLEN; omega)
  rw [dispatch_15 _ hop] at hf
  refine ⟨?_, ?_, ?_⟩
  · intro s' hstep
    rw [hf] at hstep
    obtain ⟨hp, hr7, -⟩ := trap_instr_some _ _ hstep
    have hp' : s'.pc = toWord (s.pc + 1) := hp
    have hr' : s'.reg 7 = toWord (s.pc + 1) := hr7
    refine ⟨hr', by rw [hp', hr'], ?_⟩
    intro hlow
    rw [hp']
    exact toWord_of_word _ (by omega) hlow
  · intro h20 h22 h23
    rw [hf, trap_instr_plain _ (by rw [← hv] at h20; exact h20)
      (by rw [← hv] at h22; exact h22) (by rw [← hv] at h23; exact h23)]
    rfl
  · intro hin
    rw [hf]
    exact trap_instr_input _ (by rw [← hv] at hin; exact hin)

theorem trap_cycle_witness :
    (one_instruction_cycle (one_word_example (-4063) 1 5 6)).map (fun c => (c.pc, c.reg 7))
      = some (0x3001, 0x3001) := by
  have h := trap_cycle (one_word_example (-4063) 1 5 6) (by decide) (by decide) (by decide)
    0 0x21 (by decide) (by decide) (by decide) (by decide) (by decide)
  have hs := h.2.1 (by decide) (by decide) (by decide)
  have hstep : one_instruction_cycle (one_word_example (-4063) 1 5 6)
      = some ((one_instruction_cycle (one_word_example (-4063) 1 5 6)).get hs) :=
    (Option.some_get hs).symm
  obtain ⟨r7, p1, p2⟩ := h.1 _ hstep
  rw [hstep, Option.map_some', p1, r7]
  decide

/-- C19, counterexample: a running state executing `0xF024`, TRAP x24, a vector that is
none of `0x20`, `0x21`, `0x22`, `0x23`, `0x25`: the switch has a case for it that halts,
and the cycle leaves `running = 0`. -/
theorem trap_x24_halts :
    (one_word_example (-4060) 1 5 6).running = 1 ∧
      (one_word_example (-4060) 1 5 6).mem 0x3000 = toWord 0xF024 ∧
      (one_instruction_cycle (one_word_example (-4060) 1 5 6)).map CPU.running = some 0 := by
  decide

/-- C19 (as amended): a running state whose word at `pc` is a TRAP with vector `v`
(bits 11..8 any `x`).  If `v` is none of `0x20`, `0x21`, `0x22`, `0x23`, `0x24`, `0x25`
the cycle returns and leaves `running` as it was (the machine keeps running); vector
`0x24` is a case of its own that halts, `running = 0`, like `0x25`. -/
theorem trap_other_vector_cycle (s : CPU) (hrun : s.running ≠ 0) (h0 : 0 ≤ s.pc)
    (h1 : s.pc ≤ 65535)
    (x v : Int) (hx0 : 0 ≤ x) (hx1 : x ≤ 15) (hv0 : 0 ≤ v) (hv1 : v ≤ 255)
    (hw : s.mem s.pc = toWord (61440 + 256 * x + v)) :
    (v ≠ 0x20 → v ≠ 0x21 → v ≠ 0x22 → v ≠ 0x23 → v ≠ 0x24 → v ≠ 0x25 →
      ∃ s', one_instruction_cycle s = some s' ∧ s'.running = s.running ∧ s'.running ≠ 0) ∧
    (v = 0x24 → ∃ s', one_instruction_cycle s = some s' ∧ s'.running = 0) := by
  unfold toWord at hw
  have hop : s.mem s.pc / 4096 % 16 = 15 := by rw [hw]; omega
  have hv : s.mem s.pc % 256 = v := by rw [hw]; omega
  have hf := fetch_eq s hrun h0 (by unfold MEMLEN; omega)
  rw [dispatch_15 _ hop] at hf
  constructor
  · intro h20 _ h22 h23 h24 h25
    have hn : ¬ (s.mem s.pc % 256 = 0x24 ∨ s.mem s.pc % 256 = 0x25) := by
      rw [hv]; omega
    rw [hf, trap_instr_plain _ (by rw [← hv] at h20; exact h20)
      (by rw [← hv] at h22; exact h22) (by rw [← hv] at h23; exact h23)]
    have hr : (if s.mem s.pc % 256 = 0x24 ∨ s.mem s.pc % 256 = 0x25 then 0 else s.running)
        = s.running := if_neg hn
    exact ⟨_, rfl, hr, by rw [show _ = s.running from hr]; exact hrun⟩
  · intro h24
    have hy : s.mem s.pc % 256 = 0x24 ∨ s.mem s.pc % 256 = 0x25 := by
      rw [hv]; exact Or.inl h24
    rw [hf, trap_instr_plain _ (by rw [hv]; omega) (by rw [hv]; omega) (by rw [hv]; omega)]
    have hr : (if s.mem s.pc % 256 = 0x24 ∨ s.mem s.pc % 256 = 0x25 then 0 else s.running)
        = 0 := if_pos hy
    exact ⟨_, rfl, hr⟩

theorem trap_other_vector_cycle_witness :
    (one_instruction_cycle (one_word_example (-3841) 1 5 6)).map CPU.running = some 1 := by
  obtain ⟨s1, e1, r1, -⟩ := (trap_other_vector_cycle (one_word_example (-3841) 1 5 6)
    (by decide) (by decide) (by decide) 0 0xFF (by decide) (by decide) (by decide)
    (by decide) (by decide)).1 (by decide) (by decide) (by decide) (by decide) (by decide)
    (by decide)
  rw [e1, Option.map_some', r1]
  decide

/-! ## RTI and the reserved opcode -/

/-- C20: a running state whose word at `pc` has opcode `0x8` (RTI) or `0xD` (reserved),
the low twelve bits `low` being arbitrary.  One cycle sets `running = 0` and leaves all
registers, memory and `cc` unchanged, with `pc = old pc + 1`. -/
theorem unsupported_opcode_cycle (s : CPU) (hrun : s.running ≠ 0) (h0 : 0 ≤ s.pc)
    (h1 : s.pc ≤ 65535) (low : Int) (hl0 : 0 ≤ low) (hl1 : low ≤ 4095)
    (hw : s.mem s.pc = toWord (32768 + low) ∨ s.mem s.pc = toWord (53248 + low)) :
    ∃ s', one_instruction_cycle s = some s' ∧ s'.running = 0 ∧ (∀ i, s'.reg i = s.reg i) ∧
      s'.mem = s.mem ∧ s'.cc = s.cc ∧ s'.pc = s.pc + 1 := by
  unfold toWord at hw
  rw [fetch_eq s hrun h0 (by unfold MEMLEN; omega)]
  rcases hw with hw | hw
  · have hop : s.mem s.pc / 4096 % 16 = 8 := by rw [hw]; omega
    rw [dispatch_8 _ hop]
    exact ⟨_, rfl, rfl, fun _ => rfl, rfl, rfl, rfl⟩
  · have hop : s.mem s.pc / 4096 % 16 = 13 := by rw [hw]; omega
    rw [dispatch_13 _ hop]
    exact ⟨_, rfl, rfl, fun _ => rfl, rfl, rfl, rfl⟩

theorem unsupported_opcode_cycle_witness :
    ((one_instruction_cycle (one_word_example (-32768) 1 5 6)).map
      fun c => (c.running, c.reg 1, c.cc, c.pc)) = some (0, 5, 1, 0x3001) ∧
    ((one_instruction_cycle (one_word_example (-12288) 1 5 6)).map
      fun c => (c.running, c.reg 2, c.cc, c.pc)) = some (0, 6, 1, 0x3001) := by
  obtain ⟨s1, e1, r1, f1, -, c1, p1⟩ := unsupported_opcode_cycle
    (one_word_example (-32768) 1 5 6) (by decide) (by decide) (by decide) 0 (by decide)
    (by decide) (Or.inl (by decide))
  obtain ⟨s2, e2, r2, f2, -, c2, p2⟩ := unsupported_opcode_cycle
    (one_word_example (-12288) 1 5 6) (by decide) (by decide) (by decide) 0 (by decide)
    (by decide) (Or.inr (by decide))
  rw [e1, e2, Option.map_some', Option.map_some', r1, r2, f1 1, f2 2, c1, c2, p1, p2]
  constructor <;> decide


/-! ## The condition-code unit -/

/-- C21: `calculateCondition result` sets `cc` to 4 if `result < 0`, to 2 if
`result = 0` and to 1 if `result > 0`, for every integer `result`, and changes no other
field of the CPU state. -/
theorem calculateCondition_sets_only_cc (result : Int) (cpu : CPU) :
    calculateCondition result cpu =
      { cpu with cc := if result < 0 then 4 else if result = 0 then 2 else 1 } := by
  unfold calculateCondition
  by_cases h1 : result > 0
  · rw [if_pos h1, if_neg (by omega), if_neg (by omega)]
  · rw [if_neg h1]
    by_cases h2 : result = 0
    · rw [if_pos h2, if_neg (by omega), if_pos h2]
    · rw [if_neg h2, if_pos (by omega)]

/-! ## ADD, immediate mode -/

/-- C27: a running state whose word at `pc` is an ADD in immediate mode (opcode 1, bit 5
set) with `dst`, `src1` in `0 .. 7` and 5-bit field `imm`.  The handler assigns
`reg[dst] = reg[src1] + sign_extend(imm)` twice: after one cycle, when `dst ≠ src1`,
`reg[dst]` is `old reg[src1] + sign_extend(imm)` wrapped to 16 bits, and when
`dst = src1` it is `old reg[dst] + 2 * sign_extend(imm)` wrapped to 16 bits. -/
theorem add_immediate_cycle (s : CPU) (hrun : s.running ≠ 0) (h0 : 0 ≤ s.pc)
    (h1 : s.pc ≤ 65535)
    (dst src1 imm : Int) (hd0 : 0 ≤ dst) (hd1 : dst ≤ 7) (ha0 : 0 ≤ src1) (ha1 : src1 ≤ 7)
    (hi0 : 0 ≤ imm) (hi1 : imm ≤ 31)
    (hw : s.mem s.pc = 4096 + 512 * dst + 64 * src1 + 32 + imm) :
    ∃ s', one_instruction_cycle s = some s' ∧
      (dst ≠ src1 → s'.reg dst =
        (s.reg src1 + (if imm < 16 then imm else imm - 32) + 32768) % 65536 - 32768) ∧
      (dst = src1 → s'.reg dst =
        (s.reg dst + 2 * (if imm < 16 then imm else imm - 32) + 32768) % 65536 - 32768) := by
  obtain ⟨s', hstep, hr, -⟩ := step_add_imm s hrun h0 (by unfold MEMLEN; omega)
    (by rw [hw]; omega) (by rw [hw]; omega) dst src1 (if imm < 16 then imm else imm - 32)
    (by rw [hw]; omega) (by rw [hw]; omega)
    (by
      have : s.mem s.pc % 32 = imm := by rw [hw]; omega
      rw [this])
  refine ⟨s', hstep, ?_, ?_⟩
  · intro hne
    rw [hr]
    show (if dst = dst then _ else _) = _
    rw [if_pos rfl, if_neg (fun e => hne e.symm)]
    rfl
  · intro he
    rw [hr]
    show (if dst = dst then _ else _) = _
    rw [if_pos rfl, if_pos he.symm, ← he]
    unfold toWord
    omega

theorem add_immediate_cycle_witness :
    (one_instruction_cycle (one_word_example 0x1265 2 7 0)).map (fun c => c.reg 1)
      = some 17 ∧
    (one_instruction_cycle (one_word_example 0x1665 2 7 0)).map (fun c => c.reg 3)
      = some 12 := by
  obtain ⟨s1, e1, -, r1⟩ := add_immediate_cycle (one_word_example 0x1265 2 7 0) (by decide)
    (by decide) (by decide) 1 1 5 (by decide) (by decide) (by decide) (by decide)
    (by decide) (by decide) (by decide)
  obtain ⟨s2, e2, r2, -⟩ := add_immediate_cycle (one_word_example 0x1665 2 7 0) (by decide)
    (by decide) (by decide) 3 1 5 (by decide) (by decide) (by decide) (by decide)
    (by decide) (by decide) (by decide)
  rw [e1, e2, Option.map_some', Option.map_some', r1 rfl, r2 (by decide)]
  constructor <;> decide

/-! ## The state after loading -/

/-- C23, counterexample: `load(origin=0x3000, [0xF025])`, one word with bit 15 set as
`sscanf` with `%x` delivers it (61477), and `0x3000 + 1 ≤ 65536`.  The loader assigns
the scanned `int` to a `Word`, a signed 16-bit cell, so `mem[0x3000]` holds -4059, not
61477. -/
theorem load_stores_signed_word :
    (0x3000 : Int) + ([0xF025] : List Int).length ≤ 65536 ∧
    ([0xF025] : List Int).getD 0 0 = 61477 ∧
    (load 0x3000 [0xF025] garbage_example).map (fun c => c.mem 0x3000) = some (-4059) := by
  obtain ⟨s, hl, -, -, -, -, -, -, hmem, -, -⟩ :=
    load_state garbage_example 0x3000 [0xF025] (by decide) (by decide)
  refine ⟨by decide, by decide, ?_⟩
  rw [hl, Option.map_some', hmem 0x3000 (by decide) (by decide)]
  decide

/-- C23 (as amended): for an origin `o ≥ 0` and a list `ws` of scanned values with
`o + length ws ≤ 65536`, and whatever the CPU record held before,
`initialize_control_unit` followed by `initialize_memory` yields a state with `pc = o`,
`origin = o`, `running = 1`, all eight registers 0, `cc = 2` (Zero), and, for every
`i < length ws`, `mem[o + i]` is `ws[i]` converted to the signed 16-bit `Word`,
`(ws[i] + 32768) mod 65536 - 32768`: it is `ws[i]` itself when `ws[i]` lies in
`-32768 .. 32767`, and `ws[i] - 65536` when `ws[i]` lies in `32768 .. 65535`. -/
theorem load_establishes (prior : CPU) (o : Int) (ws : List Int) (ho : 0 ≤ o)
    (hlen : o + ws.length ≤ 65536) :
    ∃ s, load o ws prior = some s ∧ s.pc = o ∧ s.origin = o ∧ s.running = 1 ∧
      (∀ i, 0 ≤ i → i < 8 → s.reg i = 0) ∧ s.cc = 2 ∧
      ∀ i : Nat, i < ws.length →
        s.mem (o + i) = (ws.getD i 0 + 32768) % 65536 - 32768 ∧
        (-32768 ≤ ws.getD i 0 → ws.getD i 0 ≤ 32767 → s.mem (o + i) = ws.getD i 0) ∧
        (32768 ≤ ws.getD i 0 → ws.getD i 0 ≤ 65535 →
          s.mem (o + i) = ws.getD i 0 - 65536) := by
  obtain ⟨s, hl, hpc, hor, hrun, hcc, -, hreg, hmem, -, -⟩ :=
    load_state prior o ws ho (by unfold MEMLEN; omega)
  refine ⟨s, hl, hpc, hor, hrun, hreg, hcc, ?_⟩
  intro i hi
  rw [hmem (o + i) (by omega) (by omega)]
  have hidx : (o + (i : Int) - o).toNat = i := by omega
  rw [hidx]
  unfold toWord
  refine ⟨rfl, ?_, ?_⟩
  · intro ha hb; omega
  · intro ha hb; omega

theorem load_establishes_witness :
    (load 0x3000 [0x1025, 0xF025] garbage_example).map
      (fun c => (c.pc, c.origin, c.running, c.reg 0, c.reg 7, c.cc, c.mem 0x3000,
        c.mem 0x3001))
      = some (0x3000, 0x3000, 1, 0, 0, 2, 0x1025, -4059) := by
  obtain ⟨s, hl, h1, h2, h3, h4, h5, h6⟩ :=
    load_establishes garbage_example 0x3000 [0x1025, 0xF025] (by decide) (by decide)
  have hm0 := (h6 0 (by decide)).1
  have hm1 := (h6 1 (by decide)).1
  rw [hl, Option.map_some', h1, h2, h3, h4 0 (by decide) (by decide),
    h4 7 (by decide) (by decide), h5]
  simp only [Nat.cast_zero, add_zero] at hm0
  have hm1' : s.mem 0x3001 = -4059 := by
    have e : ((0x3000 : Int) + ((1 : Nat) : Int)) = 0x3001 := by norm_num
    rw [e] at hm1
    rw [hm1]
    decide
  rw [hm0, hm1']
  rfl

/-- C24: the state after `load(origin=0x3000, [0x1025])` on a CPU record whose memory
cells all held 7 before.  The loader stores the word at `0x3000` and zeroes the cells
from `0x3001` up, but never writes below the origin: `mem[0]` and `mem[0x2FFF]` still
hold 7, not 0. -/
theorem load_keeps_memory_below_origin :
    (load 0x3000 [0x1025] garbage_example).map
      (fun c => (c.mem 0, c.mem 0x2FFF, c.mem 0x3000, c.mem 0x3001, c.mem 0xFFFF))
      = some (7, 7, 0x1025, 0, 0) := by
  obtain ⟨s, hl, -, -, -, -, -, -, hmem, hzero, hlow⟩ :=
    load_state garbage_example 0x3000 [0x1025] (by decide) (by decide)
  rw [hl, Option.map_some', hlow 0 (by decide), hlow 0x2FFF (by decide),
    hmem 0x3000 (by decide) (by decide), hzero 0x3001 (by decide) (by decide),
    hzero 0xFFFF (by decide) (by decide)]
  decide


/-! ## The condition code after one cycle -/

theorem calculateCondition_cc_range (r : Int) (c : CPU) :
    (calculateCondition r c).cc = 1 ∨ (calculateCondition r c).cc = 2 ∨
      (calculateCondition r c).cc = 4 := by
  rw [calculateCondition_cc]
  split_ifs
  · exact Or.inr (Or.inr rfl)
  · exact Or.inr (Or.inl rfl)
  · exact Or.inl rfl

theorem flags_cc (r : Int) (c t : CPU) (x : Int)
    (h : some (generateCondition (calculateCondition r c)) = some t) :
    t.cc = x ∨ t.cc = 1 ∨ t.cc = 2 ∨ t.cc = 4 := by
  rw [← Option.some.inj h, generateCondition_cc]
  exact Or.inr (calculateCondition_cc_range r c)

theorem add_instr_cc (t t' : CPU) (h : add_instr t = some t') :
    t'.cc = t.cc ∨ t'.cc = 1 ∨ t'.cc = 2 ∨ t'.cc = 4 := by
  have hm : t.ir / 32 % 2 = 0 ∨ t.ir / 32 % 2 = 1 := by omega
  rcases hm with hm | hm
  · rw [add_instr_reg_eq t hm] at h; exact flags_cc _ _ _ _ h
  · rw [add_instr_imm_eq t hm] at h; exact flags_cc _ _ _ _ h

theorem and_instr_cc (t t' : CPU) (h : and_instr t = some t') :
    t'.cc = t.cc ∨ t'.cc = 1 ∨ t'.cc = 2 ∨ t'.cc = 4 := by
  have hm : t.ir / 32 % 2 = 0 ∨ t.ir / 32 % 2 = 1 := by omega
  rcases hm with hm | hm
  · rw [and_instr_reg_eq t hm] at h; exact flags_cc _ _ _ _ h
  · rw [and_instr_imm_eq t hm] at h; exact flags_cc _ _ _ _ h

theorem not_instr_cc (t t' : CPU) (h : not_instr t = some t') :
    t'.cc = t.cc ∨ t'.cc = 1 ∨ t'.cc = 2 ∨ t'.cc = 4 := by
  rw [not_instr_eq] at h; exact flags_cc _ _ _ _ h

theorem lea_instr_cc (t t' : CPU) (h : lea_instr t = some t') :
    t'.cc = t.cc ∨ t'.cc = 1 ∨ t'.cc = 2 ∨ t'.cc = 4 := by
  rw [lea_instr_eq] at h; exact flags_cc _ _ _ _ h

theorem load_instr_cc (t t' : CPU) (h : load_instr t = some t') :
    t'.cc = t.cc ∨ t'.cc = 1 ∨ t'.cc = 2 ∨ t'.cc = 4 := by
  rw [load_instr_eq] at h
  split_ifs at h
  exact flags_cc _ _ _ _ h

theorem store_instr_cc (t t' : CPU) (h : store_instr t = some t') :
    t'.cc = t.cc ∨ t'.cc = 1 ∨ t'.cc = 2 ∨ t'.cc = 4 := by
  rw [store_instr_eq] at h
  split_ifs at h
  exact flags_cc _ _ _ _ h

theorem ldr_instr_cc (t t' : CPU) (h : ldr_instr t = some t') :
    t'.cc = t.cc ∨ t'.cc = 1 ∨ t'.cc = 2 ∨ t'.cc = 4 := by
  rw [ldr_instr_eq] at h
  split_ifs at h
  exact flags_cc _ _ _ _ h

theorem str_instr_cc (t t' : CPU) (h : str_instr t = some t') :
    t'.cc = t.cc ∨ t'.cc = 1 ∨ t'.cc = 2 ∨ t'.cc = 4 := by
  rw [str_instr_eq] at h
  split_ifs at h
  exact flags_cc _ _ _ _ h

theorem ldi_instr_cc (t t' : CPU) (h : ldi_instr t = some t') :
    t'.cc = t.cc ∨ t'.cc = 1 ∨ t'.cc = 2 ∨ t'.cc = 4 := by
  unfold ldi_instr at h
  simp only [Option.bind_eq_some, CPU.readReg, CPU.writeReg, CPU.readMem,
    Option.ite_none_right_eq_some, Option.some.injEq] at h
  obtain ⟨_, _, _, _, _, _, _, _, _, _, h⟩ := h
  exact flags_cc _ _ _ _ (congrArg some h)

theorem sti_instr_cc (t t' : CPU) (h : sti_instr t = some t') :
    t'.cc = t.cc ∨ t'.cc = 1 ∨ t'.cc = 2 ∨ t'.cc = 4 := by
  unfold sti_instr at h
  simp only [Option.bind_eq_some, CPU.readReg, CPU.writeMem, CPU.readMem,
    Option.ite_none_right_eq_some, Option.some.injEq] at h
  obtain ⟨_, _, _, _, _, _, _, _, _, _, _, _, h⟩ := h
  exact flags_cc _ _ _ _ (congrArg some h)

theorem branch_instr_cc (t t' : CPU) (h : branch_instr t = some t') : t'.cc = t.cc := by
  rw [branch_instr_eq] at h
  rw [← Option.some.inj h]
  split_ifs
  · rw [generateCondition_cc]
  · rw [generateCondition_cc]
  · rfl

theorem jump_subr_instr_cc (t t' : CPU) (h : jump_subr_instr t = some t') :
    t'.cc = t.cc := by
  have hm : t.ir / 2048 % 2 = 0 ∨ t.ir / 2048 % 2 = 1 := by omega
  rcases hm with hm | hm
  · rw [jump_subr_instr_jsrr_eq t hm] at h
    split_ifs at h
    rw [← Option.some.inj h]
  · rw [jump_subr_instr_jsr_eq t hm] at h
    rw [← Option.some.inj h]

theorem jump_instr_cc (t t' : CPU) (h : jump_instr t = some t') : t'.cc = t.cc := by
  rw [jump_instr_eq] at h; rw [← Option.some.inj h]

/-- The condition code after `dispatch`: unchanged, or one of 1, 2, 4. -/
theorem dispatch_cc (t t' : CPU) (h : dispatch t = some t') :
    t'.cc = t.cc ∨ t'.cc = 1 ∨ t'.cc = 2 ∨ t'.cc = 4 := by
  by_cases hr : 0 ≤ t.opcode ∧ t.opcode ≤ 15
  · have hc : t.opcode = 0 ∨ t.opcode = 1 ∨ t.opcode = 2 ∨ t.opcode = 3 ∨ t.opcode = 4 ∨
        t.opcode = 5 ∨ t.opcode = 6 ∨ t.opcode = 7 ∨ t.opcode = 8 ∨ t.opcode = 9 ∨
        t.opcode = 10 ∨ t.opcode = 11 ∨ t.opcode = 12 ∨ t.opcode = 13 ∨ t.opcode = 14 ∨
        t.opcode = 15 := by omega
    rcases hc with c | c | c | c | c | c | c | c | c | c | c | c | c | c | c | c
    · rw [dispatch_0 t c] at h; exact Or.inl (branch_instr_cc t t' h)
    · rw [dispatch_1 t c] at h; exact add_instr_cc t t' h
    · rw [dispatch_2 t c] at h; exact load_instr_cc t t' h
    · rw [dispatch_3 t c] at h; exact store_instr_cc t t' h
    · rw [dispatch_4 t c] at h; exact Or.inl (jump_subr_instr_cc t t' h)
    · rw [dispatch_5 t c] at h; exact and_instr_cc t t' h
    · rw [dispatch_6 t c] at h; exact ldr_instr_cc t t' h
    · rw [dispatch_7 t c] at h; exact str_instr_cc t t' h
    · rw [dispatch_8 t c] at h; exact Or.inl (by rw [← Option.some.inj h]; rfl)
    · rw [dispatch_9 t c] at h; exact not_instr_cc t t' h
    · rw [dispatch_10 t c] at h; exact ldi_instr_cc t t' h
    · rw [dispatch_11 t c] at h; exact sti_instr_cc t t' h
    · rw [dispatch_12 t c] at h; exact Or.inl (jump_instr_cc t t' h)
    · rw [dispatch_13 t c] at h; exact Or.inl (by rw [← Option.some.inj h]; rfl)
    · rw [dispatch_14 t c] at h; exact lea_instr_cc t t' h
    · rw [dispatch_15 t c] at h; exact Or.inl (trap_instr_some t t' h).2.2.2.1
  · rw [dispatch_other t hr] at h; exact Or.inl (by rw [← Option.some.inj h])

theorem cycle_cc (s s' : CPU) (hcc : s.cc = 1 ∨ s.cc = 2 ∨ s.cc = 4)
    (h : one_instruction_cycle s = some s') : s'.cc = 1 ∨ s'.cc = 2 ∨ s'.cc = 4 := by
  by_cases hrun : s.running = 0
  · rw [halted_cycle s hrun] at h
    rw [← Option.some.inj h]
    exact hcc
  · unfold one_instruction_cycle at h
    rw [if_neg hrun] at h
    simp only [Option.bind_eq_some] at h
    obtain ⟨w, -, hd⟩ := h
    rcases dispatch_cc _ _ hd with e | e
    · have e' : s'.cc = s.cc := by
        rw [e]
        show (if s.pc ≥ MEMLEN then ({ s with running := 0 } : CPU) else s).cc = s.cc
        split_ifs <;> rfl
      rw [e']; exact hcc
    · exact e

theorem many_cycles_cc (n : Nat) :
    ∀ s s' : CPU, (s.cc = 1 ∨ s.cc = 2 ∨ s.cc = 4) → manyInstructionCycles s n = some s' →
      (s'.cc = 1 ∨ s'.cc = 2 ∨ s'.cc = 4) := by
  induction n with
  | zero =>
    intro s s' hcc h
    rw [← Option.some.inj h]
    exact hcc
  | succ n ih =>
    intro s s' hcc h
    simp only [manyInstructionCycles, Option.bind_eq_some] at h
    obtain ⟨s1, h1, h2⟩ := h
    exact ih s1 s' (cycle_cc s s1 hcc h1) h2

theorem writeMem_cc (c c' : CPU) (i v : Int) (h : c.writeMem i v = some c') :
    c'.cc = c.cc := by
  unfold CPU.writeMem at h
  split_ifs at h
  rw [← Option.some.inj h]

theorem load_lines_cc (l : List (Option Int)) :
    ∀ (c c' : CPU) (loc loc' : Int), load_lines c loc l = some (c', loc') → c'.cc = c.cc := by
  induction l with
  | nil =>
    intro c c' loc loc' h
    simp only [load_lines, Option.some.injEq, Prod.mk.injEq] at h
    rw [← h.1]
  | cons x rest ih =>
    intro c c' loc loc' h
    cases x with
    | none =>
      simp only [load_lines] at h
      exact ih c c' loc loc' h
    | some v =>
      simp only [load_lines] at h
      cases hw : c.writeMem loc v with
      | none => rw [hw] at h; exact absurd h (by simp)
      | some c1 =>
        rw [hw] at h
        rw [ih c1 c' (loc + 1) loc' h, writeMem_cc c c1 loc v hw]

theorem zero_rest_cc (n : Nat) :
    ∀ (c c' : CPU) (loc : Int), zero_rest c loc n = some c' → c'.cc = c.cc := by
  induction n with
  | zero =>
    intro c c' loc h
    simp only [zero_rest, Option.some.injEq] at h
    rw [← h]
  | succ n ih =>
    intro c c' loc h
    simp only [zero_rest] at h
    cases hw : c.writeMem loc 0 with
    | none => rw [hw] at h; exact absurd h (by simp)
    | some c1 =>
      rw [hw] at h
      rw [ih c1 c' (loc + 1) h, writeMem_cc c c1 loc 0 hw]

theorem load_cc (prior s : CPU) (o : Int) (ws : List Int) (h : load o ws prior = some s) :
    s.cc = 2 := by
  unfold load initialize_memory at h
  simp only [] at h
  cases hl : load_lines
      { initialize_control_unit prior with pc := o, origin := o } o (ws.map some) with
  | none => rw [hl] at h; exact absurd h (by simp)
  | some p =>
    obtain ⟨c1, loc⟩ := p
    rw [hl] at h
    simp only [] at h
    rw [zero_rest_cc _ _ _ _ h, load_lines_cc _ _ _ _ _ hl]
    rfl

/-- C22: `cc` is always exactly one of N (4), Z (2), P (1).  `initialize_control_unit`
sets `cc = 2`; for every state with `cc ∈ {1, 2, 4}` and every instruction word, the
state after one cycle has `cc ∈ {1, 2, 4}`; hence `cc ∈ {1, 2, 4}` in every state reached
from a load by any number of cycles.  This includes the character input of TRAP x20 and
x23 at the end of standard input: that cycle completes, whatever the unassigned local
`input` holds, and leaves `cc` as it was. -/
theorem cc_is_one_flag :
    (∀ c : CPU, (initialize_control_unit c).cc = 2) ∧
    (∀ s s' : CPU, (s.cc = 1 ∨ s.cc = 2 ∨ s.cc = 4) → one_instruction_cycle s = some s' →
      (s'.cc = 1 ∨ s'.cc = 2 ∨ s'.cc = 4)) ∧
    (∀ (prior : CPU) (o : Int) (ws : List Int) (n : Nat) (s0 s' : CPU),
      load o ws prior = some s0 → manyInstructionCycles s0 n = some s' →
      (s'.cc = 1 ∨ s'.cc = 2 ∨ s'.cc = 4)) ∧
    (∀ (s : CPU) (x v : Int), s.running ≠ 0 → 0 ≤ s.pc → s.pc ≤ 65535 →
      0 ≤ x → x ≤ 15 → (v = 0x20 ∨ v = 0x23) →
      s.mem s.pc = toWord (61440 + 256 * x + v) →
      ∃ s', one_instruction_cycle s = some s' ∧ s'.cc = s.cc) := by
  refine ⟨fun _ => rfl, cycle_cc, ?_, ?_⟩
  · intro prior o ws n s0 s' hl hm
    exact many_cycles_cc n s0 s' (Or.inr (Or.inl (load_cc prior s0 o ws hl))) hm
  · intro s x v hrun h0 h1 hx0 hx1 hv hw
    unfold toWord at hw
    have hop : s.mem s.pc / 4096 % 16 = 15 := by rw [hw]; omega
    have hv' : s.mem s.pc % 256 = 0x20 ∨ s.mem s.pc % 256 = 0x23 := by rw [hw]; omega
    have hf := fetch_eq s hrun h0 (by unfold MEMLEN; omega)
    rw [dispatch_15 _ hop] at hf
    have hs : (one_instruction_cycle s).isSome = true := by
      rw [hf]; exact trap_instr_input _ hv'
    obtain ⟨s', hs'⟩ := Option.isSome_iff_exists.mp hs
    have hstep := hs'
    rw [hf] at hstep
    exact ⟨s', hs', (trap_instr_some _ _ hstep).2.2.2.1⟩

theorem cc_is_one_flag_witness :
    (initialize_control_unit garbage_example).cc = 2 ∧
    (one_instruction_cycle (one_word_example 0x1042 2 5 3)).map
      (fun c => decide (c.cc = 1 ∨ c.cc = 2 ∨ c.cc = 4)) = some true ∧
    (one_word_example (-4064) 1 5 6).stdin = [] ∧
    (one_instruction_cycle (one_word_example (-4064) 1 5 6)).map CPU.cc = some 1 := by
  have hs : (one_instruction_cycle (one_word_example 0x1042 2 5 3)).isSome = true := by
    decide
  have hstep : one_instruction_cycle (one_word_example 0x1042 2 5 3)
      = some ((one_instruction_cycle (one_word_example 0x1042 2 5 3)).get hs) :=
    (Option.some_get hs).symm
  have h := cc_is_one_flag.2.1 (one_word_example 0x1042 2 5 3) _ (by decide) hstep
  obtain ⟨s2, e2, c2⟩ := cc_is_one_flag.2.2.2 (one_word_example (-4064) 1 5 6) 0 0x20
    (by decide) (by decide) (by decide) (by decide) (by decide) (Or.inl rfl) (by decide)
  refine ⟨cc_is_one_flag.1 garbage_example, ?_, rfl, ?_⟩
  · rw [hstep, Option.map_some']
    exact congrArg some (decide_eq_true h)
  · rw [e2, Option.map_some', c2]
    rfl


/-! ## LDR, STR, and the condition code after a store -/

theorem str_instr_val (t : CPU) (a : Int)
    (ha : a = t.reg (t.ir / 64 % 8) + adjust (t.ir % 64) 6) (h0 : 0 ≤ a) (h1 : a < MEMLEN) :
    ∃ t', str_instr t = some t' ∧ t'.mem a = toWord (t.reg (t.ir / 512 % 8)) ∧
      (∀ x, x ≠ a → t'.mem x = t.mem x) ∧ t'.reg = t.reg ∧ t'.pc = t.pc ∧
      t'.cc = (if toWord (t.reg (t.ir / 512 % 8)) < 0 then 4
               else if toWord (t.reg (t.ir / 512 % 8)) = 0 then 2 else 1) ∧
      t'.running = t.running := by
  subst ha
  rw [str_instr_eq, if_pos ⟨h0, h1⟩]
  refine ⟨_, rfl, ?_, ?_, ?_, ?_, ?_, ?_⟩
  · rw [generateCondition_mem, calculateCondition_mem]
    show (if _ = _ then _ else _) = _
    rw [if_pos rfl]
  · intro x hx
    rw [generateCondition_mem, calculateCondition_mem]
    show (if x = _ then _ else _) = _
    rw [if_neg hx]
  · rw [generateCondition_reg, calculateCondition_reg]
  · rw [generateCondition_pc, calculateCondition_pc]
  · rw [generateCondition_cc, calculateCondition_cc]
  · rw [generateCondition_running, calculateCondition_running]

theorem ldr_instr_val (t : CPU) (a : Int)
    (ha : a = t.reg (t.ir / 64 % 8) + adjust (t.ir % 64) 6) (h0 : 0 ≤ a) (h1 : a < MEMLEN) :
    ∃ t', ldr_instr t = some t' ∧ t'.reg (t.ir / 512 % 8) = toWord (t.mem a) ∧
      t'.mem = t.mem ∧ t'.pc = t.pc ∧ t'.running = t.running := by
  subst ha
  rw [ldr_instr_eq, if_pos ⟨h0, h1⟩]
  refine ⟨_, rfl, ?_, ?_, ?_, ?_⟩
  · rw [generateCondition_reg, calculateCondition_reg]
    show (if _ = _ then _ else _) = _
    rw [if_pos rfl]
  · rw [generateCondition_mem, calculateCondition_mem]
  · rw [generateCondition_pc, calculateCondition_pc]
  · rw [generateCondition_running, calculateCondition_running]

theorem sti_instr_val (t : CPU) (hp0 : 0 ≤ t.pc) (hp1 : t.pc < MEMLEN)
    (hq0 : 0 ≤ t.mem t.pc) (hq1 : t.mem t.pc < MEMLEN) (hne : t.mem t.pc ≠ t.pc) :
    ∃ t', sti_instr t = some t' ∧
      t'.cc = (if toWord (t.reg (t.ir / 512 % 8)) < 0 then 4
               else if toWord (t.reg (t.ir / 512 % 8)) = 0 then 2 else 1) ∧
      t'.mem (t.mem t.pc) = toWord (t.reg (t.ir / 512 % 8)) := by
  have hsame : (if t.pc = t.mem t.pc then toWord (t.reg (t.ir / 512 % 8)) else t.mem t.pc)
      = t.mem t.pc := if_neg (fun e => hne e.symm)
  have hcell : (if t.mem t.pc = t.mem t.pc then toWord (t.reg (t.ir / 512 % 8))
      else t.mem (t.mem t.pc)) = toWord (t.reg (t.ir / 512 % 8)) := if_pos rfl
  unfold sti_instr
  simp only [field_11_9r]
  rw [readMem_eq t _ hp0 hp1, Option.some_bind, readMem_eq t _ hq0 hq1, Option.some_bind,
    readReg_field t _ 8 (by norm_num) (by norm_num), Option.some_bind,
    writeMem_eq t _ _ hq0 hq1, Option.some_bind]
  simp only [CPU.readMem, hp0, hp1, and_self, if_true, Option.some_bind, hsame, hq0, hq1,
    hcell]
  refine ⟨_, rfl, ?_, ?_⟩
  · rw [generateCondition_cc, calculateCondition_cc]
  · rw [generateCondition_mem, calculateCondition_mem]
    exact hcell


/-- C25, counterexample: the cycle on `0xB200`, STI R1, #0, at `pc = 0x3000` with
`R1 = 5`, where the pointer word `mem[0x3001]` holds `0x3001`, an address in range.  The
store writes 5 (positive) over the pointer word itself; the handler then sets `cc` from
`mem[mem[0x3001]] = mem[5] = 0`, so `cc = 2` (Zero), not 1 (Positive). -/
theorem sti_cc_from_other_cell :
    sti_self_example.reg 1 = 5 ∧ sti_self_example.mem (0x3000 + 1 + 0) = 0x3001 ∧
    (one_instruction_cycle sti_self_example).map (fun c => (c.mem 0x3001, c.cc))
      = some (5, 2) := by
  decide

/-- C25 (as amended): a running state whose source register `src` holds a 16-bit value.
* ST with target `a = old pc + 1 + sign_extend(k)` in `0 .. 65535`, and STR with target
  `a = reg[base] + sign_extend(k)` in `0 .. 65535`: after one cycle `mem[a] = old reg[src]`
  and `cc` is 4, 2 or 1 as that value is negative, zero or positive.
* STI with offset 0, whose target is the content `p` of the cell `old pc + 1`: when `p`
  is in `0 .. 65535` and `p ≠ old pc + 1` (the target is not the pointer cell itself),
  after one cycle `cc` is 4, 2 or 1 as `old reg[src]` is negative, zero or positive.
Nothing is stated about STI with another offset, nor about an STI whose target is its own
pointer cell. -/
theorem store_sets_cc (s : CPU) (hrun : s.running ≠ 0) (h0 : 0 ≤ s.pc) (h1 : s.pc ≤ 65535)
    (src : Int) (hs0 : 0 ≤ src) (hs1 : src ≤ 7)
    (hsrc : -32768 ≤ s.reg src ∧ s.reg src ≤ 32767) :
    (∀ k a : Int, 0 ≤ k → k ≤ 511 → s.mem s.pc = 12288 + 512 * src + k →
      a = s.pc + 1 + (if k < 256 then k else k - 512) → 0 ≤ a → a ≤ 65535 →
      ∃ s', one_instruction_cycle s = some s' ∧ s'.mem a = s.reg src ∧
        s'.cc = (if s.reg src < 0 then 4 else if s.reg src = 0 then 2 else 1)) ∧
    (∀ base k a : Int, 0 ≤ base → base ≤ 7 → 0 ≤ k → k ≤ 63 →
      s.mem s.pc = 28672 + 512 * src + 64 * base + k →
      a = s.reg base + (if k < 32 then k else k - 64) → 0 ≤ a → a ≤ 65535 →
      ∃ s', one_instruction_cycle s = some s' ∧ s'.mem a = s.reg src ∧
        s'.cc = (if s.reg src < 0 then 4 else if s.reg src = 0 then 2 else 1)) ∧
    (∀ p : Int, s.mem s.pc = toWord (45056 + 512 * src) →
      s.pc ≤ 65534 → p = s.mem (s.pc + 1) → 0 ≤ p → p ≤ 65535 → p ≠ s.pc + 1 →
      ∃ s', one_instruction_cycle s = some s' ∧
        s'.cc = (if s.reg src < 0 then 4 else if s.reg src = 0 then 2 else 1)) := by
  have hf := fetch_eq s hrun h0 (by unfold MEMLEN; omega)
  have hword := toWord_of_word _ hsrc.1 hsrc.2
  refine ⟨?_, ?_, ?_⟩
  · intro k a hk0 hk1 hw ha ha0 ha1
    have hop : s.mem s.pc / 4096 % 16 = 3 := by rw [hw]; omega
    have hfd : s.mem s.pc / 512 % 8 = src := by rw [hw]; omega
    have hfk : s.mem s.pc % 512 = k := by rw [hw]; omega
    have hadj : adjust (s.mem s.pc % 512) 9 = if k < 256 then k else k - 512 := by
      rw [adjust_9, hfk]
    obtain ⟨t', ht, hm, -, -, -, hc, -⟩ := store_instr_val
      { s with ir := s.mem s.pc, pc := s.pc + 1, opcode := s.mem s.pc / 4096 % 16 } a
      (by rw [ha]; exact congrArg (fun z => s.pc + 1 + z) hadj.symm) ha0
      (by unfold MEMLEN; omega)
    simp only [hfd] at hm hc
    rw [hword] at hm
    refine ⟨t', ?_, hm, hc⟩
    rw [hf, dispatch_3 _ hop]
    exact ht
  · intro base k a hb0 hb1 hk0 hk1 hw ha ha0 ha1
    have hop : s.mem s.pc / 4096 % 16 = 7 := by rw [hw]; omega
    have hfd : s.mem s.pc / 512 % 8 = src := by rw [hw]; omega
    have hfb : s.mem s.pc / 64 % 8 = base := by rw [hw]; omega
    have hfk : s.mem s.pc % 64 = k := by rw [hw]; omega
    have hadj : adjust (s.mem s.pc % 64) 6 = if k < 32 then k else k - 64 := by
      rw [adjust_6, hfk]
    obtain ⟨t', ht, hm, -, -, -, hc, -⟩ := str_instr_val
      { s with ir := s.mem s.pc, pc := s.pc + 1, opcode := s.mem s.pc / 4096 % 16 } a
      (by
        show a = s.reg (s.mem s.pc / 64 % 8) + adjust (s.mem s.pc % 64) 6
        rw [hfb, hadj, ha]) ha0
      (by unfold MEMLEN; omega)
    simp only [hfd] at hm hc
    rw [hword] at hm hc
    refine ⟨t', ?_, hm, hc⟩
    rw [hf, dispatch_7 _ hop]
    exact ht
  · intro p hw hpc hp hp0 hp1 hne
    unfold toWord at hw
    have hop : s.mem s.pc / 4096 % 16 = 11 := by rw [hw]; omega
    have hfd : s.mem s.pc / 512 % 8 = src := by rw [hw]; omega
    obtain ⟨t', ht, hc, hm⟩ := sti_instr_val
      { s with ir := s.mem s.pc, pc := s.pc + 1, opcode := s.mem s.pc / 4096 % 16 }
      (by show 0 ≤ s.pc + 1; omega) (by show s.pc + 1 < MEMLEN; unfold MEMLEN; omega)
      (by show 0 ≤ s.mem (s.pc + 1); rw [← hp]; exact hp0)
      (by show s.mem (s.pc + 1) < MEMLEN; rw [← hp]; unfold MEMLEN; omega)
      (by show s.mem (s.pc + 1) ≠ s.pc + 1; rw [← hp]; exact hne)
    simp only [hfd] at hc
    rw [hword] at hc
    refine ⟨t', ?_, hc⟩
    rw [hf, dispatch_11 _ hop]
    exact ht

theorem store_sets_cc_witness :
    (one_instruction_cycle (one_word_example 0x3201 2 (-3) 0)).map
      (fun c => (c.mem 0x3002, c.cc)) = some (-3, 4) ∧
    (one_instruction_cycle (indirect_example (-19968) 99)).map CPU.cc = some 1 := by
  obtain ⟨s1, e1, m1, c1⟩ := (store_sets_cc (one_word_example 0x3201 2 (-3) 0) (by decide)
    (by decide) (by decide) 1 (by decide) (by decide) ⟨by decide, by decide⟩).1 1 0x3002
    (by decide) (by decide) (by decide) (by decide) (by decide) (by decide)
  obtain ⟨s2, e2, c2⟩ := (store_sets_cc (indirect_example (-19968) 99) (by decide)
    (by decide) (by decide) 1 (by decide) (by decide) ⟨by decide, by decide⟩).2.2 0x4000
    (by decide) (by decide) (by decide) (by decide) (by decide) (by decide)
  rw [e1, e2, Option.map_some', Option.map_some', m1, c1, c2]
  constructor <;> decide

/-- C26: store/load round trip.  A running state with `pc ≤ 65534` whose word at `pc` is
STR `src`, `base`, `k` and whose word at `pc + 1` is LDR `dst`, `base`, `k` (registers in
`0 .. 7`, 6-bit offset field `k`), with `reg[src]` a 16-bit value and
`a = reg[base] + sign_extend(k)` in `0 .. 65535`, `a` not the address `pc + 1` of the
second instruction.  Two consecutive cycles leave `reg[dst]` equal to the value
`reg[src]` held before the STR, and `mem[a]` equal to that same value. -/
theorem str_ldr_round_trip (s : CPU) (hrun : s.running ≠ 0) (h0 : 0 ≤ s.pc)
    (h1 : s.pc ≤ 65534)
    (src dst base k a : Int) (hs0 : 0 ≤ src) (hs1 : src ≤ 7) (hd0 : 0 ≤ dst) (hd1 : dst ≤ 7)
    (hb0 : 0 ≤ base) (hb1 : base ≤ 7) (hk0 : 0 ≤ k) (hk1 : k ≤ 63)
    (hsrc : -32768 ≤ s.reg src ∧ s.reg src ≤ 32767)
    (ha : a = s.reg base + (if k < 32 then k else k - 64)) (ha0 : 0 ≤ a) (ha1 : a ≤ 65535)
    (hne : a ≠ s.pc + 1)
    (hw1 : s.mem s.pc = 28672 + 512 * src + 64 * base + k)
    (hw2 : s.mem (s.pc + 1) = 24576 + 512 * dst + 64 * base + k) :
    ∃ s', manyInstructionCycles s 2 = some s' ∧ s'.reg dst = s.reg src ∧
      s'.mem a = s.reg src := by
  have hword := toWord_of_word _ hsrc.1 hsrc.2
  -- first cycle: STR
  have hop : s.mem s.pc / 4096 % 16 = 7 := by rw [hw1]; omega
  have hfd : s.mem s.pc / 512 % 8 = src := by rw [hw1]; omega
  have hfb : s.mem s.pc / 64 % 8 = base := by rw [hw1]; omega
  have hfk : s.mem s.pc % 64 = k := by rw [hw1]; omega
  have hadj : adjust (s.mem s.pc % 64) 6 = if k < 32 then k else k - 64 := by
    rw [adjust_6, hfk]
  obtain ⟨s1, ht1, hm1, hfr1, hr1, hp1, -, hrun1⟩ := str_instr_val
    { s with ir := s.mem s.pc, pc := s.pc + 1, opcode := s.mem s.pc / 4096 % 16 } a
    (by
      show a = s.reg (s.mem s.pc / 64 % 8) + adjust (s.mem s.pc % 64) 6
      rw [hfb, hadj, ha]) ha0 (by unfold MEMLEN; omega)
  simp only [hfd] at hm1
  rw [hword] at hm1
  have hstep1 : one_instruction_cycle s = some s1 := by
    rw [fetch_eq s hrun h0 (by unfold MEMLEN; omega), dispatch_7 _ hop]
    exact ht1
  have hpc1 : s1.pc = s.pc + 1 := hp1
  have hreg1 : s1.reg = s.reg := hr1
  have hrn1 : s1.running ≠ 0 := by rw [show s1.running = s.running from hrun1]; exact hrun
  have hnext : s1.mem s1.pc = 24576 + 512 * dst + 64 * base + k := by
    rw [hpc1, hfr1 (s.pc + 1) (fun e => hne e.symm)]
    exact hw2
  -- second cycle: LDR
  have hop2 : s1.mem s1.pc / 4096 % 16 = 6 := by rw [hnext]; omega
  have hfd2 : s1.mem s1.pc / 512 % 8 = dst := by rw [hnext]; omega
  have hfb2 : s1.mem s1.pc / 64 % 8 = base := by rw [hnext]; omega
  have hfk2 : s1.mem s1.pc % 64 = k := by rw [hnext]; omega
  have hadj2 : adjust (s1.mem s1.pc % 64) 6 = if k < 32 then k else k - 64 := by
    rw [adjust_6, hfk2]
  obtain ⟨s2, ht2, hv2, hm2, -, -⟩ := ldr_instr_val
    { s1 with ir := s1.mem s1.pc, pc := s1.pc + 1, opcode := s1.mem s1.pc / 4096 % 16 } a
    (by
      show a = s1.reg (s1.mem s1.pc / 64 % 8) + adjust (s1.mem s1.pc % 64) 6
      rw [hfb2, hadj2, hreg1, ha]) ha0 (by unfold MEMLEN; omega)
  simp only [hfd2] at hv2
  have hstep2 : one_instruction_cycle s1 = some s2 := by
    rw [fetch_eq s1 hrn1 (by rw [hpc1]; omega) (by rw [hpc1]; unfold MEMLEN; omega),
      dispatch_6 _ hop2]
    exact ht2
  have hmem2 : s2.mem = s1.mem := hm2
  refine ⟨s2, ?_, ?_, ?_⟩
  · simp only [manyInstructionCycles, hstep1, hstep2, Option.some_bind]
  · rw [hv2]
    show toWord (s1.mem a) = _
    rw [hm1, hword]
  · rw [hmem2, hm1]

theorem str_ldr_round_trip_witness :
    (manyInstructionCycles str_ldr_example 2).map (fun c => (c.reg 3, c.mem 0x4003))
      = some (99, 99) := by
  obtain ⟨s2, e, r, m⟩ := str_ldr_round_trip str_ldr_example (by decide) (by decide)
    (by decide) 1 3 2 3 0x4003 (by decide) (by decide) (by decide) (by decide) (by decide)
    (by decide) (by decide) (by decide) ⟨by decide, by decide⟩ (by decide) (by decide)
    (by decide) (by decide) (by decide) (by decide)
  rw [e, Option.map_some', r, m]
  decide

end LC3

namespace SDC

/-- C28: the decimal machine's loader on 101 in-range values.  After the first 100 the
loop has `loc = 100 = memlen`; the guard `loc > memlen` does not fire for it, so the next
value is stored by `mem[loc++]` at index 100, which is not an index of `int mem[100]`:
the loader has no result. -/
theorem loader_stores_at_memlen :
    (load_loop MEMLEN (fun _ => 0) 0 (List.replicate 100 (some 1))).map Prod.snd
      = some 100 ∧
    ¬ ((100 : Int) > MEMLEN) ∧
    (writeMem (fun _ => 0) 100 1).isSome = false ∧
    (initialize_memory (List.replicate 101 (some 1)) (fun _ => 0) MEMLEN).isSome = false := by
  decide

end SDC
